import Mathlib

/-
Verification development for the spaghettinuum DHT node
(src/spaghettinuum/src/node/mod.rs and
src/spaghettinuum/src/interface/wire/node/v1.rs).

The Rust code is shallowly embedded: pure fragments become Lean functions,
the mutable node state becomes explicit state passing over records, hash maps
become association lists, and wall-clock instants become integers (seconds).
SHA-256 (which maps identities to DHT coordinates) is kept as an explicit
function parameter of the definitions that use it, since its internals are
irrelevant to every property here.  Signatures are modelled symbolically:
a signed object records which identity produced it, and verification against
an identity succeeds exactly when that identity matches (ideal signatures).
-/

set_option maxRecDepth 100000

namespace Spag

/-- A byte value, `u8` in the source, modelled as `Nat`. -/
abbrev Byte := Nat

/-- `u8::leading_zeros` of the source: for a byte `b < 256` this is
8 minus the bit length of `b` (so 8 for `b = 0`). -/
def byteLeadingZeros (b : Byte) : Nat :=
  if 128 ≤ b then 0
  else if 64 ≤ b then 1
  else if 32 ≤ b then 2
  else if 16 ≤ b then 3
  else if 8 ≤ b then 4
  else if 4 ≤ b then 5
  else if 2 ≤ b then 6
  else if 1 ≤ b then 7
  else 8

/-- `DhtCoord` of wire/node/v1.rs: a 256-bit coordinate, 32 bytes.
The length is tracked by well-formedness predicates where it matters. -/
structure DhtCoord where
  bytes : List Byte
deriving DecidableEq

/-- Helper of `dist_` in node/mod.rs: xors the two byte strings pairwise and
accumulates leading-zero bits until the first one bit has been seen. -/
def distAux : List Byte → List Byte → Bool → Nat × List Byte
  | a :: as, b :: bs, firstOne =>
    let o := a ^^^ b
    if firstOne then
      let r := distAux as bs true
      (r.1, o :: r.2)
    else
      let blz := byteLeadingZeros o
      let r := distAux as bs (decide (blz < 8))
      (blz + r.1, o :: r.2)
  | _, _, _ => (0, [])

/-- `dist` of node/mod.rs: returns the leading-zero count of the XOR of the
two coordinates together with the XOR itself. -/
def dist (a b : DhtCoord) : Nat × DhtCoord :=
  let r := distAux a.bytes b.bytes false
  (r.1, ⟨r.2⟩)

/-- Lexicographic comparison of byte strings; this is the derived `Ord` of
the `GenericArray` inside `DhtCoord` (arrays compared elementwise). -/
def bytesLe : List Byte → List Byte → Bool
  | [], _ => true
  | _ :: _, [] => false
  | a :: as, b :: bs => if a < b then true else if b < a then false else bytesLe as bs

/-- The derived total order on `DhtCoord` used by `sort_by_key` in the source. -/
def coordLe (a b : DhtCoord) : Bool := bytesLe a.bytes b.bytes

/-- `NodeIdentity` of stored/node_identity.rs: a versioned public key.  Only
equality and the SHA-256 coordinate of an identity matter to the node logic,
so it is modelled as an opaque tag. -/
structure NodeIdentity where
  key : Nat
deriving DecidableEq

/-- `Identity` of stored/identity.rs (user identity), likewise opaque here. -/
structure Identity where
  key : Nat
deriving DecidableEq

/-- A socket address (`SocketAddr`), opaque to the node logic. -/
abbrev Addr := Nat

/-- `NodeInfo` of wire/node/v1.rs. -/
structure NodeInfo where
  ident : NodeIdentity
  address : Addr
deriving DecidableEq

/-- `NodeState` of wire/node/v1.rs: one peer slot of a bucket. -/
structure NodeState where
  node : NodeInfo
  unresponsive : Bool
deriving DecidableEq

instance : Inhabited NodeState := ⟨⟨⟨⟨0⟩, 0⟩, false⟩⟩

/-- `Buckets` of node/mod.rs: 256 buckets plus the address index.  The
`HashMap<SocketAddr, NodeIdentity>` is modelled as an association list with
at most one binding per address. -/
structure Buckets where
  buckets : List (List NodeState)
  addrs : List (Addr × NodeIdentity)
deriving DecidableEq

def HASH_SIZE : Nat := 256

def NEIGHBORHOOD : Nat := 8

def PARALLEL : Nat := 3

/-- Request timeout, 5 seconds (`req_timeout`). -/
def req_timeout : Int := 5

/-- Announcement expiry, 24 hours in seconds (`expiry`). -/
def expiry : Int := 24 * 3600

/-- `buckets[i]` (indexing into the fixed-size array). -/
def getBucket (b : Buckets) (i : Nat) : List NodeState := b.buckets.getD i []

/-- Writing `buckets[i]`. -/
def setBucket (b : Buckets) (i : Nat) (v : List NodeState) : Buckets :=
  { b with buckets := b.buckets.set i v }

/-- `HashMap::get` on the address index. -/
def addrsGet (l : List (Addr × NodeIdentity)) (a : Addr) : Option NodeIdentity :=
  (l.find? (fun p => p.1 == a)).map (·.2)

/-- `HashMap::remove` on the address index. -/
def addrsRemove (l : List (Addr × NodeIdentity)) (a : Addr) : List (Addr × NodeIdentity) :=
  l.filter (fun p => p.1 != a)

/-- `HashMap::insert` on the address index (replaces any existing binding). -/
def addrsInsert (l : List (Addr × NodeIdentity)) (a : Addr) (id : NodeIdentity) :
    List (Addr × NodeIdentity) :=
  (a, id) :: addrsRemove l a

/-- Inner loop of `get_closest_peers`: walk one bucket, pushing peers while
fewer than `count` have been collected (the source checks the length before
each push and breaks out once `count` is reached). -/
def pushUpTo (count : Nat) (acc : List NodeInfo) : List NodeState → List NodeInfo
  | [] => acc
  | s :: rest =>
    if count ≤ acc.length then acc else pushUpTo count (acc ++ [s.node]) rest

/-- `Node::get_closest_peers` of node/mod.rs: ascending walk from the bucket
index `lz(XOR(goal, own))` through 255, then — exactly as the source writes
it — a descending walk over `(0 .. leading_zeros - 1).rev()`, which starts at
`leading_zeros - 2`. -/
def get_closest_peers (b : Buckets) (ownCoord goalCoord : DhtCoord) (count : Nat) :
    List NodeInfo :=
  let leadingZeros := (dist goalCoord ownCoord).1
  let ascIdx := List.range' leadingZeros (HASH_SIZE - leadingZeros)
  let nodes := ascIdx.foldl (fun acc i => pushUpTo count acc (getBucket b i)) []
  if leadingZeros > 0 then
    let descIdx := (List.range (leadingZeros - 1)).reverse
    descIdx.foldl (fun acc i => pushUpTo count acc (getBucket b i)) nodes
  else
    nodes

/-- The bucket walk claimed by the spec for `get_closest_peers`: ascending
from the starting index through 255, then descending from the starting index
minus 1 all the way down to 0 (no bucket skipped). -/
def get_closest_peers_claimed (b : Buckets) (ownCoord goalCoord : DhtCoord) (count : Nat) :
    List NodeInfo :=
  let leadingZeros := (dist goalCoord ownCoord).1
  let ascIdx := List.range' leadingZeros (HASH_SIZE - leadingZeros)
  let nodes := ascIdx.foldl (fun acc i => pushUpTo count acc (getBucket b i)) []
  let descIdx := (List.range leadingZeros).reverse
  descIdx.foldl (fun acc i => pushUpTo count acc (getBucket b i)) nodes

/-- Walk of `mark_node_unresponsive`: set the flag on the first slot whose
identity matches, returning `none` when no slot matches. -/
def markLoop (key : NodeIdentity) (unresp : Bool) : List NodeState → Option (List NodeState)
  | [] => none
  | s :: rest =>
    if s.node.ident = key then some ({ s with unresponsive := unresp } :: rest)
    else (markLoop key unresp rest).map (s :: ·)

/-- `Node::mark_node_unresponsive` of node/mod.rs: flips the flag on the
matching slot of bucket `leading_zeros` and returns early; when no slot of
that bucket matches, the source instead sets the dirty flag.  Returns the
updated buckets and dirty flag. -/
def mark_node_unresponsive (b : Buckets) (dirty : Bool) (key : NodeIdentity)
    (leading_zeros : Nat) (unresp : Bool) : Buckets × Bool :=
  match markLoop key unresp (getBucket b leading_zeros) with
  | some bucket => (setBucket b leading_zeros bucket, dirty)
  | none => (b, true)

/-- Remove the first slot holding identity `old` from a bucket (the inner
loop of `store_addr`, which breaks after the first removal). -/
def removeFirstIdent (old : NodeIdentity) : List NodeState → List NodeState
  | [] => []
  | s :: rest => if s.node.ident = old then rest else s :: removeFirstIdent old rest

/-- `store_addr` of `Node::add_good_node`: if the address already maps to
another identity, remove that identity's slot from its bucket first, then
bind the address to the new identity. -/
def store_addr (node_ident_coord : NodeIdentity → DhtCoord) (ownCoord : DhtCoord)
    (b : Buckets) (addr : Addr) (newIdent : NodeIdentity) : Buckets :=
  let b1 :=
    match addrsGet b.addrs addr with
    | some old =>
      let lz := (dist (node_ident_coord old) ownCoord).1
      setBucket b lz (removeFirstIdent old (getBucket b lz))
    | none => b
  { b1 with addrs := addrsInsert b1.addrs addr newIdent }

/-- Index of the first slot with the given identity. -/
def findIdentIdx (id : NodeIdentity) : List NodeState → Option Nat
  | [] => none
  | s :: rest =>
    if s.node.ident = id then some 0 else (findIdentIdx id rest).map (· + 1)

/-- Index of the last unresponsive slot (the `last_unresponsive` of the
source, which is only consulted when the identity was not found, i.e. after
the scan ran over the whole bucket). -/
def lastUnresponsiveIdx (bucket : List NodeState) : Option Nat :=
  (List.range bucket.length).foldl
    (fun acc i => if (bucket.getD i default).unresponsive then some i else acc) none

/-- `ValueState` of node/mod.rs; `updated` is a wall-clock stamp in seconds. -/
structure AnnouncementContent where
  published : Int
  payload : Nat
deriving DecidableEq

/-- The body of `Announcement::V1`: a `BincodeSignature` whose parsed content
carries `published`; `signer` records which user identity signed it (ideal
signature model), `payload` stands for the remaining announcement bytes. -/
structure AnnouncementV1 where
  content : AnnouncementContent
  signer : Identity
deriving DecidableEq

/-- `stored::announcement::Announcement`. -/
inductive Announcement where
  | v1 (a : AnnouncementV1)
deriving DecidableEq

/-- `BincodeSignature::verify` against a user identity, ideal-signature
model: succeeds exactly when the recorded signer matches. -/
def annVerify (a : AnnouncementV1) (id : Identity) : Option AnnouncementContent :=
  if a.signer = id then some a.content else none

/-- `parse_unwrap().published` of an announcement. -/
def annPublished : Announcement → Int
  | .v1 a => a.content.published

/-- `ValueState` of node/mod.rs. -/
structure ValueState where
  value : Announcement
  updated : Int
deriving DecidableEq

/-- `FindGoal` of wire/node/v1.rs. -/
inductive FindGoal where
  | coord (c : DhtCoord)
  | identity (i : Identity)
deriving DecidableEq

/-- A challenge or other byte buffer (`Blob`). -/
abbrev Blob := List Byte

/-- `OutstandingNodeEntry` of node/mod.rs. -/
structure OutstandingNodeEntry where
  dist : DhtCoord
  leading_zeros : Nat
  challenge : Blob
  node : NodeInfo
deriving DecidableEq

instance : Inhabited OutstandingNodeEntry := ⟨⟨⟨[]⟩, 0, [], ⟨⟨0⟩, 0⟩⟩⟩

/-- `NearestNodeEntryNode` of node/mod.rs. -/
inductive NearestNodeEntryNode where
  | self
  | node (info : NodeInfo)
deriving DecidableEq

/-- `NearestNodeEntry` of node/mod.rs. -/
structure NearestNodeEntry where
  dist : DhtCoord
  node : NearestNodeEntryNode
deriving DecidableEq

instance : Inhabited NearestNodeEntry := ⟨⟨⟨[]⟩, .self⟩⟩

/-- `FindState` of node/mod.rs.  The completion waiters (`futures`) are not
modelled individually: completion is modelled by the step functions returning
the `FindResult` delivered to every waiter. -/
structure FindState where
  req_id : Nat
  goal : FindGoal
  updated : Int
  nearest : List NearestNodeEntry
  outstanding : List OutstandingNodeEntry
  requested : List NodeIdentity
  value : Option Announcement
deriving DecidableEq

/-- The identity denoted by a nearest-set entry (`Self_` denotes the node's
own identity), as compared by the duplicate checks of `handle_find_resp`. -/
def entryIdent (ownIdent : NodeIdentity) : NearestNodeEntryNode → NodeIdentity
  | .self => ownIdent
  | .node f => f.ident

/-- The comparison `sort_by_key(|e| e.dist)` sorts by. -/
def nearestLe (a b : NearestNodeEntry) : Prop := coordLe a.dist b.dist = true

instance : DecidableRel nearestLe := fun a b => decEq _ _

/-- Sorting the nearest set, `state.nearest.sort_by_key(|e| e.dist)`. -/
def sortNearest (l : List NearestNodeEntry) : List NearestNodeEntry :=
  l.insertionSort nearestLe

/-- Order on outstanding entries, `state.outstanding.sort_by_key(|e| e.dist)`. -/
def outstandingLe (a b : OutstandingNodeEntry) : Prop := coordLe a.dist b.dist = true

instance : DecidableRel outstandingLe := fun a b => decEq _ _

/-- Sorting the outstanding set. -/
def sortOutstanding (l : List OutstandingNodeEntry) : List OutstandingNodeEntry :=
  l.insertionSort outstandingLe

/-- The coordinate of a find goal (`FindGoal::Coord` is used as is,
`FindGoal::Identity` is hashed). -/
def goalCoordOf (ident_coord : Identity → DhtCoord) : FindGoal → DhtCoord
  | .coord c => c
  | .identity i => ident_coord i

/-- `FindResult` of node/mod.rs: what every completion waiter receives. -/
structure FindResult where
  nearest : List NearestNodeEntry
  value : Option Announcement
deriving DecidableEq

/-- The mutable node state touched by the handlers modelled here: routing
table, dirty flag, value store and find-state table (each `Mutex`-protected
map becomes an association list). -/
structure NodeModel where
  ownIdent : NodeIdentity
  buckets : Buckets
  dirty : Bool
  store : List (Identity × ValueState)
  findStates : List (FindGoal × FindState)
deriving DecidableEq

/-- Lookup in the value store (`HashMap::get`). -/
def storeGet (l : List (Identity × ValueState)) (k : Identity) : Option ValueState :=
  (l.find? (fun p => p.1 == k)).map (·.2)

/-- Insert/replace in the value store (`HashMap::insert` / `Entry::insert`). -/
def storeInsert (l : List (Identity × ValueState)) (k : Identity) (v : ValueState) :
    List (Identity × ValueState) :=
  (k, v) :: l.filter (fun p => p.1 != k)

/-- Lookup in the find-state table. -/
def fsGet (l : List (FindGoal × FindState)) (g : FindGoal) : Option FindState :=
  (l.find? (fun p => p.1 == g)).map (·.2)

/-- Removal from the find-state table (`OccupiedEntry::remove`). -/
def fsRemove (l : List (FindGoal × FindState)) (g : FindGoal) :
    List (FindGoal × FindState) :=
  l.filter (fun p => p.1 != g)

/-- `Node::add_good_node` of node/mod.rs.  Returns the updated node state and
whether the identity was new.  With `node = none` the source runs the same
branch structure but skips every mutation.  N.B. in the existing-entry branch
the source computes `let changed = *bucket_entry == new_state;` — an equality,
despite the name — and sets the dirty flag when that equality holds; this is
embedded exactly as written. -/
def add_good_node (node_ident_coord : NodeIdentity → DhtCoord) (m : NodeModel)
    (id : NodeIdentity) (node : Option NodeInfo) : NodeModel × Bool :=
  if id = m.ownIdent then (m, false)
  else
    let ownCoord := node_ident_coord m.ownIdent
    let lz := (dist (node_ident_coord id) ownCoord).1
    let bucket := getBucket m.buckets lz
    match findIdentIdx id bucket with
    | some i =>
      match node with
      | some n =>
        let entry := bucket.getD i default
        let changed := entry.node = n
        let b0 := { m.buckets with addrs := addrsRemove m.buckets.addrs entry.node.address }
        let b1 := setBucket b0 lz (bucket.set i ⟨n, false⟩)
        let dirty1 := if changed then true else m.dirty
        let b2 := store_addr node_ident_coord ownCoord b1 n.address n.ident
        ({ m with buckets := b2, dirty := dirty1 }, false)
      | none => (m, false)
    | none =>
      if bucket.length < NEIGHBORHOOD then
        match node with
        | some n =>
          let b1 := setBucket m.buckets lz (⟨n, false⟩ :: bucket)
          let b2 := store_addr node_ident_coord ownCoord b1 n.address n.ident
          ({ m with buckets := b2, dirty := true }, true)
        | none => (m, true)
      else
        match lastUnresponsiveIdx bucket with
        | some i =>
          match node with
          | some n =>
            let victim := bucket.getD i default
            let b0 := { m.buckets with addrs := addrsRemove m.buckets.addrs victim.node.address }
            let b1 := setBucket b0 lz (bucket.eraseIdx i ++ [⟨n, false⟩])
            let b2 := store_addr node_ident_coord ownCoord b1 n.address n.ident
            ({ m with buckets := b2, dirty := true }, true)
          | none => (m, true)
        | none => (m, false)

/-- The `state.outstanding.retain(..)` of `handle_find_resp`: an entry whose
identity matches the responder is removed exactly when its stored challenge
equals (constant-time comparison, i.e. byte equality) the echoed challenge;
entries failing the challenge comparison are kept.  Returns the kept entries
and the removed entry (the last match, as successive assignments to
`outstanding_entry` overwrite). -/
def retainOutstanding (sender : NodeIdentity) (echoed : Blob) :
    List OutstandingNodeEntry → List OutstandingNodeEntry × Option OutstandingNodeEntry
  | [] => ([], none)
  | e :: rest =>
    let r := retainOutstanding sender echoed rest
    if e.node.ident = sender ∧ e.challenge = echoed then
      (r.1, some (r.2.getD e))
    else
      (e :: r.1, r.2)

/-- Step 6 of `handle_find_resp`: the `loop { .. break }` inserting the
responder into the nearest set.  `senderDist` is — exactly as in the source —
the distance of the responder to the node's OWN coordinate. -/
def insertNearest (ownIdent : NodeIdentity) (senderInfo : NodeInfo) (senderDist : DhtCoord)
    (nearest : List NearestNodeEntry) : List NearestNodeEntry :=
  let full := nearest.length = NEIGHBORHOOD
  if full ∧ coordLe (nearest.getLastD default).dist senderDist then nearest
  else if nearest.any (fun e => entryIdent ownIdent e.node == senderInfo.ident) then nearest
  else
    let base := if full then nearest.dropLast else nearest
    sortNearest (base ++ [⟨senderDist, .node senderInfo⟩])

/-- Accumulator of the candidate loop (step 7 of `handle_find_resp`).
`supply` is the stream of fresh 32-byte challenges `generate_challenge`
would draw; `requests` collects the deferred `FindRequest` sends. -/
structure LoopState where
  nearest : List NearestNodeEntry
  outstanding : List OutstandingNodeEntry
  requested : List NodeIdentity
  supply : List Blob
  requests : List (Blob × Addr)
deriving DecidableEq

/-- One iteration of the candidate loop of `handle_find_resp` (step 7):
dedup against `requested`, the two fullness/distance gates, the membership
checks against `nearest` and `outstanding`, then insertion (evicting the
farthest outstanding entry when at capacity) and a deferred request. -/
def processNode (node_ident_coord : NodeIdentity → DhtCoord) (ownIdent : NodeIdentity)
    (goalCoord : DhtCoord) (ls : LoopState) (n : NodeInfo) : LoopState :=
  if ls.requested.contains n.ident then ls
  else
    let requested1 := n.ident :: ls.requested
    let d := dist (node_ident_coord n.ident) goalCoord
    if ls.nearest.length = NEIGHBORHOOD ∧ coordLe (ls.nearest.getLastD default).dist d.2 then
      { ls with requested := requested1 }
    else
      let replaceOutstanding := ls.outstanding.length = PARALLEL
      if replaceOutstanding ∧ coordLe (ls.outstanding.getLastD default).dist d.2 then
        { ls with requested := requested1 }
      else if ls.nearest.any (fun e => entryIdent ownIdent e.node == n.ident) then
        { ls with requested := requested1 }
      else if ls.outstanding.any (fun e => e.node.ident == n.ident) then
        { ls with requested := requested1 }
      else
        let challenge := ls.supply.headD []
        let base := if replaceOutstanding then ls.outstanding.dropLast else ls.outstanding
        { nearest := ls.nearest,
          outstanding := sortOutstanding (base ++ [⟨d.2, d.1, challenge, n⟩]),
          requested := requested1,
          supply := ls.supply.tail,
          requests := ls.requests ++ [(challenge, n.address)] }

/-- Step 8 of `handle_find_resp`: processing a carried value.  Verify the
announcement signature against the goal identity, drop it when expired
(`published + 24h < now`), drop it when strictly older than the held one,
otherwise store it. -/
def processValue (now : Int) (goal : FindGoal) (carried : Option Announcement)
    (held : Option Announcement) : Option Announcement :=
  match carried, goal with
  | some v, .identity gid =>
    match v with
    | .v1 found =>
      match annVerify found gid with
      | none => held
      | some content =>
        if content.published + expiry < now then held
        else
          match held with
          | some haveV =>
            if annPublished haveV > content.published then held else some v
          | none => some v
  | _, _ => held

/-- Result of one `handle_find_resp` step on a `FindState`: the surviving
state (`none` when the find completed and the state was removed), the result
delivered to the waiters on completion, and the deferred `FindRequest`
sends. -/
structure StepEffects where
  state : Option FindState
  completedResult : Option FindResult
  requests : List (Blob × Addr)
deriving DecidableEq

/-- The mutation `handle_find_resp` of node/mod.rs performs on the
`FindState` for the response's goal, given the response fields (responder
identity, echoed challenge, carried nodes and value) after the payload
signature already verified.  The routing-table side effects of the same
handler (`add_good_node` on the responder, the bulk-transfer decision) do not
read or write the `FindState` and are modelled separately. -/
def findRespStep (node_ident_coord : NodeIdentity → DhtCoord)
    (ident_coord : Identity → DhtCoord) (ownIdent : NodeIdentity) (st : FindState)
    (sender : NodeIdentity) (echoed : Blob) (nodes : List NodeInfo)
    (carried : Option Announcement) (now : Int) (supply : List Blob) : StepEffects :=
  let r := retainOutstanding sender echoed st.outstanding
  match r.2 with
  | none => { state := some { st with outstanding := r.1 }, completedResult := none, requests := [] }
  | some oe =>
    let ownCoord := node_ident_coord ownIdent
    let senderDist := (dist (node_ident_coord oe.node.ident) ownCoord).2
    let nearest1 := insertNearest ownIdent oe.node senderDist st.nearest
    let goalCoord := goalCoordOf ident_coord st.goal
    let ls := nodes.foldl (processNode node_ident_coord ownIdent goalCoord)
      { nearest := nearest1, outstanding := r.1, requested := st.requested,
        supply := supply, requests := [] }
    let value1 := processValue now st.goal carried st.value
    if ls.outstanding.isEmpty then
      { state := none,
        completedResult := some ⟨ls.nearest, value1⟩,
        requests := ls.requests }
    else
      let st1 : FindState :=
        { st with
          nearest := ls.nearest
          outstanding := ls.outstanding
          requested := ls.requested
          value := value1
          updated := now }
      { state := some st1, completedResult := none, requests := ls.requests }

/-- The outstanding entries `start_find` creates for the chosen peers, each
with a fresh challenge drawn from `supply` and the distance/leading-zeros of
the peer to the GOAL coordinate (as the source computes them). -/
def mkOutstanding (node_ident_coord : NodeIdentity → DhtCoord) (goalCoord : DhtCoord) :
    List NodeInfo → List Blob → List OutstandingNodeEntry
  | [], _ => []
  | p :: ps, supply =>
    let d := dist (node_ident_coord p.ident) goalCoord
    ⟨d.2, d.1, supply.headD [], p⟩ :: mkOutstanding node_ident_coord goalCoord ps supply.tail

/-- The fresh `FindState` `Node::start_find` creates: `nearest` holds only
`Self`, `outstanding` holds the chosen peers. -/
def startFindState (node_ident_coord : NodeIdentity → DhtCoord)
    (ident_coord : Identity → DhtCoord) (ownIdent : NodeIdentity) (goal : FindGoal)
    (reqId : Nat) (now : Int) (peers : List NodeInfo) (supply : List Blob) : FindState :=
  let goalCoord := goalCoordOf ident_coord goal
  let ownCoord := node_ident_coord ownIdent
  { req_id := reqId, goal := goal, updated := now,
    nearest := [⟨(dist goalCoord ownCoord).2, .self⟩],
    outstanding := mkOutstanding node_ident_coord goalCoord peers supply,
    requested := [], value := none }

/-- Marking loop of the find-timeout handler: for every outstanding entry,
`mark_node_unresponsive(o.node.ident, o.leading_zeros, true)`. -/
def markAllOutstanding (outst : List OutstandingNodeEntry) (b : Buckets) (dirty : Bool) :
    Buckets × Bool :=
  outst.foldl (fun acc o => mark_node_unresponsive acc.1 acc.2 o.node.ident o.leading_zeros true)
    (b, dirty)

/-- The find-timeout handler of `Node::new` (the "finish timed requests"
stream): re-check the `FindState` for the fired key — no-op when it is
missing, when its `req_id` differs, or when `updated + 5s` is still in the
future — otherwise remove it, run the marking loop over its outstanding
entries and complete the waiters with the current nearest set and value. -/
def handle_find_timeout (m : NodeModel) (goal : FindGoal) (reqId : Nat) (now : Int) :
    NodeModel × Option FindResult :=
  match fsGet m.findStates goal with
  | none => (m, none)
  | some st =>
    if st.req_id ≠ reqId then (m, none)
    else if st.updated + req_timeout > now then (m, none)
    else
      let bd := markAllOutstanding st.outstanding m.buckets m.dirty
      ({ m with findStates := fsRemove m.findStates goal, buckets := bd.1, dirty := bd.2 },
        some ⟨st.nearest, st.value⟩)

/-- Outcome of the `Message::Store` handler. -/
inductive StoreOutcome where
  | badSig
  | tooNew
  | replaced
  | inserted
  | ignored
deriving DecidableEq

/-- The `Message::Store` arm of `Node::handle`: verify the announcement
signature against the key, reject a published stamp beyond `now + 1min`,
then insert (vacant) or replace only when the incoming `published` is
strictly greater than the stored one; otherwise leave the entry untouched. -/
def handle_store (m : NodeModel) (key : Identity) (value : Announcement) (now : Int) :
    NodeModel × StoreOutcome :=
  match value with
  | .v1 v =>
    match annVerify v key with
    | none => (m, .badSig)
    | some content =>
      if content.published > now + 60 then (m, .tooNew)
      else
        match storeGet m.store key with
        | some vs =>
          if content.published > annPublished vs.value then
            ({ m with store := storeInsert m.store key ⟨value, now⟩ }, .replaced)
          else (m, .ignored)
        | none => ({ m with store := storeInsert m.store key ⟨value, now⟩ }, .inserted)

/-- The value held for a goal after one `handle_find_resp` step: the value of
the surviving state, or the value delivered to the waiters when the step
completed the find. -/
def valueAfter (out : StepEffects) : Option Announcement :=
  match out.state with
  | some s => s.value
  | none =>
    match out.completedResult with
    | some res => res.value
    | none => none

/-- Acceptance condition for a carried value, phrased as the code decides it:
signature verifies against the goal identity, not expired, and the held value
(if any) is not strictly newer than the carried one. -/
def acceptsCarried (now : Int) (gid : Identity) (v : AnnouncementV1)
    (held : Option Announcement) : Bool :=
  v.signer == gid && !(decide (v.content.published + expiry < now)) &&
    (match held with
     | none => true
     | some hv => decide (annPublished hv ≤ v.content.published))

/-- A concrete coordinate map used by witnesses and counterexamples: the
identity tagged `k` has coordinate `[k mod 256, 0, ..., 0]` (32 bytes). -/
def demoCoord (id : NodeIdentity) : DhtCoord := ⟨id.key % 256 :: List.replicate 31 0⟩

/-- Concrete coordinate map for user identities, same shape. -/
def demoIdentCoord (id : Identity) : DhtCoord := ⟨id.key % 256 :: List.replicate 31 0⟩

/-- Outcome of `Node::send` for one datagram. -/
inductive SendOutcome where
  | sent
  | panicked
deriving DecidableEq

/-- A socket-level send error, opaque. -/
abbrev SockErr := Nat

/-- `Node::send` of node/mod.rs, given the result of the underlying
`UdpSocket::send_to`: the source logs the outgoing message at debug level and
then calls `.unwrap()` on the send result, so an error panics the sending
task.  The returned flag records whether any error was logged (the source
has no error-logging path here). -/
def node_send (sendResult : Except SockErr Unit) : SendOutcome × Bool :=
  match sendResult with
  | .ok _ => (.sent, false)
  | .error _ => (.panicked, false)

namespace Wire

/-
Byte-level model of `Message::to_bytes` / `Message::from_bytes` of
wire/node/v1.rs, which bincode-serialize the tagged `Message` union with
bincode 1.x defaults: fixed-width little-endian integers, `u32` enum variant
tags, `u64` sequence lengths, one-byte `Option` tags.  The leaf types whose
sources are not part of this repository snapshot (`Blob` of utils/blob.rs,
`NodeIdentity` of stored/node_identity.rs, `Identity` of stored/identity.rs,
`SerialAddr` of stored/shared.rs, the announcement signature of
stored/announcement.rs) are modelled from the spec: canonical, deterministic,
version-tagged serialization with fixed-width/length-prefixed fields
(spec sections 4.4 and 6), Ed25519 keys of 32 bytes.
-/

/-- `k`-byte little-endian encoding of a natural number (bincode fixint). -/
def encNat : Nat → Nat → List Byte
  | 0, _ => []
  | k + 1, n => n % 256 :: encNat k (n / 256)

/-- Decoder matching `encNat`: reads `k` bytes, returns the value and the
remaining input. -/
def decNat : Nat → List Byte → Option (Nat × List Byte)
  | 0, s => some (0, s)
  | _ + 1, [] => none
  | k + 1, b :: s => (decNat k s).map (fun r => (b + 256 * r.1, r.2))

/-- Length-prefixed byte buffer: `u64` little-endian length, then the bytes
(bincode's encoding of a `Vec<u8>`-backed `Blob`). -/
def encBlob (b : List Byte) : List Byte := encNat 8 b.length ++ b

/-- Decoder matching `encBlob`. -/
def decBlob (s : List Byte) : Option (List Byte × List Byte) :=
  (decNat 8 s).bind fun r =>
    if r.1 ≤ r.2.length then some (r.2.take r.1, r.2.drop r.1) else none

/-- Reads exactly `n` raw bytes. -/
def decRaw (n : Nat) (s : List Byte) : Option (List Byte × List Byte) :=
  if n ≤ s.length then some (s.take n, s.drop n) else none

/-- Modelled from the spec: `NodeIdentity` (stored/node_identity.rs is not in
this snapshot) — a version-tagged Ed25519 public key, serialized as the `u32`
tag of the `V1` variant followed by the 32 raw key bytes. -/
structure NodeIdentity where
  key : List Byte
deriving DecidableEq

/-- Modelled from the spec: user `Identity` (stored/identity.rs is not in
this snapshot) — same shape as `NodeIdentity`. -/
structure Identity where
  key : List Byte
deriving DecidableEq

/-- Modelled from the spec: `SerialAddr` (stored/shared.rs is not in this
snapshot) — a socket address with a canonical length-prefixed byte
serialization. -/
structure SerialAddr where
  bytes : List Byte
deriving DecidableEq

/-- `DhtCoord` on the wire (its serde instances are in wire/node/v1.rs): the
32 coordinate bytes serialized as a byte slice, i.e. length-prefixed;
deserialization insists on exactly 32 bytes. -/
def encDhtCoord (c : DhtCoord) : List Byte := encBlob c.bytes

/-- Decoder for `DhtCoord` (rejects any length other than 32). -/
def decDhtCoord (s : List Byte) : Option (DhtCoord × List Byte) :=
  (decBlob s).bind fun r =>
    if r.1.length = 32 then some (⟨r.1⟩, r.2) else none

def encNodeIdentity (i : NodeIdentity) : List Byte := encNat 4 0 ++ i.key

def decNodeIdentity (s : List Byte) : Option (NodeIdentity × List Byte) :=
  (decNat 4 s).bind fun r =>
    if r.1 = 0 then (decRaw 32 r.2).map (fun q => (⟨q.1⟩, q.2)) else none

def encIdentity (i : Identity) : List Byte := encNat 4 0 ++ i.key

def decIdentity (s : List Byte) : Option (Identity × List Byte) :=
  (decNat 4 s).bind fun r =>
    if r.1 = 0 then (decRaw 32 r.2).map (fun q => (⟨q.1⟩, q.2)) else none

def encSerialAddr (a : SerialAddr) : List Byte := encBlob a.bytes

def decSerialAddr (s : List Byte) : Option (SerialAddr × List Byte) :=
  (decBlob s).map (fun r => (⟨r.1⟩, r.2))

/-- `BincodeSignature<T, I>` of wire/node/v1.rs: the serialized message bytes
and the signature bytes (the `PhantomData` field is `serde(skip)`ped). -/
structure BincodeSignature where
  message : List Byte
  signature : List Byte
deriving DecidableEq

def encBincodeSignature (b : BincodeSignature) : List Byte :=
  encBlob b.message ++ encBlob b.signature

def decBincodeSignature (s : List Byte) : Option (BincodeSignature × List Byte) :=
  (decBlob s).bind fun r => (decBlob r.2).map (fun q => (⟨r.1, q.1⟩, q.2))

/-- Modelled from the spec: `Announcement` (stored/announcement.rs is not in
this snapshot) — a version-tagged signed blob, `V1` carrying a
`BincodeSignature`. -/
inductive Announcement where
  | v1 (sig : BincodeSignature)
deriving DecidableEq

def encAnnouncement : Announcement → List Byte
  | .v1 sig => encNat 4 0 ++ encBincodeSignature sig

def decAnnouncement (s : List Byte) : Option (Announcement × List Byte) :=
  (decNat 4 s).bind fun r =>
    if r.1 = 0 then (decBincodeSignature r.2).map (fun q => (.v1 q.1, q.2)) else none

/-- `FindGoal` of wire/node/v1.rs. -/
inductive FindGoal where
  | coord (c : DhtCoord)
  | identity (i : Identity)
deriving DecidableEq

def encFindGoal : FindGoal → List Byte
  | .coord c => encNat 4 0 ++ encDhtCoord c
  | .identity i => encNat 4 1 ++ encIdentity i

def decFindGoal (s : List Byte) : Option (FindGoal × List Byte) :=
  (decNat 4 s).bind fun r =>
    if r.1 = 0 then (decDhtCoord r.2).map (fun q => (.coord q.1, q.2))
    else if r.1 = 1 then (decIdentity r.2).map (fun q => (.identity q.1, q.2))
    else none

/-- `FindRequest` of wire/node/v1.rs. -/
structure FindRequest where
  sender : NodeIdentity
  challenge : List Byte
  goal : FindGoal
deriving DecidableEq

/-- `FindResponse` of wire/node/v1.rs. -/
structure FindResponse where
  sender : NodeIdentity
  content : BincodeSignature
deriving DecidableEq

/-- `StoreRequest` of wire/node/v1.rs. -/
structure StoreRequest where
  key : Identity
  value : Announcement
deriving DecidableEq

/-- `ChallengeResponse` of wire/node/v1.rs. -/
structure ChallengeResponse where
  sender : NodeIdentity
  signature : List Byte
deriving DecidableEq

/-- `Message` of wire/node/v1.rs — the seven protocol variants. -/
inductive Message where
  | findRequest (m : FindRequest)
  | findResponse (m : FindResponse)
  | store (m : StoreRequest)
  | ping
  | pung (k : NodeIdentity)
  | challenge (b : List Byte)
  | challengeResponse (m : ChallengeResponse)
deriving DecidableEq

/-- `Message::to_bytes`: bincode serialization of the tagged union. -/
def Message.to_bytes : Message → List Byte
  | .findRequest m => encNat 4 0 ++ encNodeIdentity m.sender ++ encBlob m.challenge ++ encFindGoal m.goal
  | .findResponse m => encNat 4 1 ++ encNodeIdentity m.sender ++ encBincodeSignature m.content
  | .store m => encNat 4 2 ++ encIdentity m.key ++ encAnnouncement m.value
  | .ping => encNat 4 3
  | .pung k => encNat 4 4 ++ encNodeIdentity k
  | .challenge b => encNat 4 5 ++ encBlob b
  | .challengeResponse m => encNat 4 6 ++ encNodeIdentity m.sender ++ encBlob m.signature

/-- Decoder for one `Message`, returning the remaining input. -/
def decMessage (s : List Byte) : Option (Message × List Byte) :=
  (decNat 4 s).bind fun r =>
    if r.1 = 0 then
      (decNodeIdentity r.2).bind fun a =>
        (decBlob a.2).bind fun b =>
          (decFindGoal b.2).map (fun c => (.findRequest ⟨a.1, b.1, c.1⟩, c.2))
    else if r.1 = 1 then
      (decNodeIdentity r.2).bind fun a =>
        (decBincodeSignature a.2).map (fun b => (.findResponse ⟨a.1, b.1⟩, b.2))
    else if r.1 = 2 then
      (decIdentity r.2).bind fun a =>
        (decAnnouncement a.2).map (fun b => (.store ⟨a.1, b.1⟩, b.2))
    else if r.1 = 3 then some (.ping, r.2)
    else if r.1 = 4 then (decNodeIdentity r.2).map (fun a => (.pung a.1, a.2))
    else if r.1 = 5 then (decBlob r.2).map (fun a => (.challenge a.1, a.2))
    else if r.1 = 6 then
      (decNodeIdentity r.2).bind fun a =>
        (decBlob a.2).map (fun b => (.challengeResponse ⟨a.1, b.1⟩, b.2))
    else none

/-- `Message::from_bytes`: bincode deserialization (bincode 1.x reads the
value from the front of the buffer). -/
def Message.from_bytes (s : List Byte) : Option Message :=
  (decMessage s).map (·.1)

/-- Well-formedness of a byte buffer on the wire: its length fits the `u64`
length prefix. -/
def blobWf (b : List Byte) : Prop := b.length < 2 ^ 64

instance (b : List Byte) : Decidable (blobWf b) := by unfold blobWf; infer_instance

/-- Well-formedness of an identity: a 32-byte key. -/
def identKeyWf (k : List Byte) : Prop := k.length = 32

instance (k : List Byte) : Decidable (identKeyWf k) := by unfold identKeyWf; infer_instance

def serialAddrWf (a : SerialAddr) : Prop := blobWf a.bytes

instance (a : SerialAddr) : Decidable (serialAddrWf a) := by
  unfold serialAddrWf; infer_instance

def bincodeSignatureWf (b : BincodeSignature) : Prop :=
  blobWf b.message ∧ blobWf b.signature

instance (b : BincodeSignature) : Decidable (bincodeSignatureWf b) := by
  unfold bincodeSignatureWf; infer_instance

def announcementWf : Announcement → Prop
  | .v1 sig => bincodeSignatureWf sig

instance (a : Announcement) : Decidable (announcementWf a) := by
  cases a <;> unfold announcementWf <;> infer_instance

def findGoalWf : FindGoal → Prop
  | .coord c => c.bytes.length = 32
  | .identity i => identKeyWf i.key

instance (g : FindGoal) : Decidable (findGoalWf g) := by
  cases g <;> unfold findGoalWf <;> infer_instance

/-- Well-formedness of a protocol message: every identity key has 32 bytes,
every buffer and list fits its `u64` length prefix. -/
def messageWf : Message → Prop
  | .findRequest m => identKeyWf m.sender.key ∧ blobWf m.challenge ∧ findGoalWf m.goal
  | .findResponse m => identKeyWf m.sender.key ∧ bincodeSignatureWf m.content
  | .store m => identKeyWf m.key.key ∧ announcementWf m.value
  | .ping => True
  | .pung k => identKeyWf k.key
  | .challenge b => blobWf b
  | .challengeResponse m => identKeyWf m.sender.key ∧ blobWf m.signature

instance (m : Message) : Decidable (messageWf m) := by
  cases m <;> unfold messageWf <;> infer_instance

end Wire

/-- Totality and transitivity of the entry order, needed for the sorting
lemmas about `sort_by_key`. -/
instance : IsTotal NearestNodeEntry nearestLe :=
  ⟨fun a b => by
    unfold nearestLe coordLe
    have h : ∀ x y : List Byte, bytesLe x y = true ∨ bytesLe y x = true := by
      intro x
      induction x with
      | nil => intro y; left; rfl
      | cons a as ih =>
        intro y
        cases y with
        | nil => right; rfl
        | cons b bs =>
          rcases Nat.lt_trichotomy a b with h | h | h
          · left; simp [bytesLe, h]
          · subst h
            rcases ih bs with h2 | h2
            · left; simp [bytesLe, h2]
            · right; simp [bytesLe, h2]
          · right; simp [bytesLe, h, Nat.not_lt_of_lt h]
    exact h a.dist.bytes b.dist.bytes⟩

instance : IsTrans NearestNodeEntry nearestLe :=
  ⟨fun a b c hab hbc => by
    unfold nearestLe coordLe at hab hbc ⊢
    have h : ∀ x y z : List Byte,
        bytesLe x y = true → bytesLe y z = true → bytesLe x z = true := by
      intro x
      induction x with
      | nil => intro y z _ _; rfl
      | cons a as ih =>
        intro y z hxy hyz
        cases y with
        | nil => simp [bytesLe] at hxy
        | cons b bs =>
          cases z with
          | nil => simp [bytesLe] at hyz
          | cons c cs =>
            simp only [bytesLe] at hxy hyz ⊢
            rcases Nat.lt_trichotomy a b with h1 | h1 | h1
            · rcases Nat.lt_trichotomy b c with h2 | h2 | h2
              · simp [Nat.lt_trans h1 h2]
              · subst h2; simp [h1]
              · simp [h2, Nat.not_lt_of_lt h2] at hyz
            · subst h1
              rcases Nat.lt_trichotomy a c with h2 | h2 | h2
              · simp [h2]
              · subst h2
                simp [Nat.lt_irrefl] at hxy hyz ⊢
                exact ih _ _ hxy hyz
              · simp [h2, Nat.not_lt_of_lt h2] at hyz
            · simp [h1, Nat.not_lt_of_lt h1] at hxy
    exact h a.dist.bytes b.dist.bytes c.dist.bytes hab hbc⟩

/-- The claimed invariant of C3 on a `FindState`: at most `K` nearest
entries, sorted ascending by their recorded distance, with pairwise distinct
identities (`Self` standing for the node's own identity); at most `PARALLEL`
outstanding entries whose identities avoid every identity of the nearest
set. -/
def FindStateInv (ownIdent : NodeIdentity) (st : FindState) : Prop :=
  st.nearest.length ≤ NEIGHBORHOOD ∧
  List.Sorted nearestLe st.nearest ∧
  (st.nearest.map (fun e => entryIdent ownIdent e.node)).Nodup ∧
  st.outstanding.length ≤ PARALLEL ∧
  ∀ e ∈ st.outstanding, ∀ f ∈ st.nearest, e.node.ident ≠ entryIdent ownIdent f.node

/-- Strengthening of `FindStateInv` used for the induction: the outstanding
identities are also pairwise distinct. -/
def StrongFindInv (ownIdent : NodeIdentity) (st : FindState) : Prop :=
  FindStateInv ownIdent st ∧ (st.outstanding.map (fun e => e.node.ident)).Nodup

/-- The invariant carried through the candidate loop of `handle_find_resp`. -/
def LoopInv (ownIdent : NodeIdentity) (ls : LoopState) : Prop :=
  ls.nearest.length ≤ NEIGHBORHOOD ∧
  List.Sorted nearestLe ls.nearest ∧
  (ls.nearest.map (fun e => entryIdent ownIdent e.node)).Nodup ∧
  ls.outstanding.length ≤ PARALLEL ∧
  (ls.outstanding.map (fun e => e.node.ident)).Nodup ∧
  ∀ e ∈ ls.outstanding, ∀ f ∈ ls.nearest, e.node.ident ≠ entryIdent ownIdent f.node

/-- Well-formedness of the routing table, as `add_good_node` maintains it:
every slot sits in the bucket given by the leading zeros of its distance to
the node's own coordinate, identities within a bucket are distinct, and the
node's own identity is never stored. -/
def BucketsWf (node_ident_coord : NodeIdentity → DhtCoord) (ownIdent : NodeIdentity)
    (b : Buckets) : Prop :=
  (∀ i, ∀ s ∈ getBucket b i,
    (dist (node_ident_coord s.node.ident) (node_ident_coord ownIdent)).1 = i) ∧
  (∀ i, ((getBucket b i).map (fun s => s.node.ident)).Nodup) ∧
  (∀ i, ∀ s ∈ getBucket b i, s.node.ident ≠ ownIdent)

/-- The find states reachable for one goal: the state `start_find` freshly
creates (from any well-formed routing table), followed by any number of
`handle_find_resp` steps that leave the state alive. -/
inductive FindReachable (node_ident_coord : NodeIdentity → DhtCoord)
    (ident_coord : Identity → DhtCoord) (ownIdent : NodeIdentity) (goal : FindGoal) :
    FindState → Prop where
  | start (b : Buckets) (reqId : Nat) (now : Int) (supply : List Blob)
      (hwf : BucketsWf node_ident_coord ownIdent b) :
      FindReachable node_ident_coord ident_coord ownIdent goal
        (startFindState node_ident_coord ident_coord ownIdent goal reqId now
          (get_closest_peers b (node_ident_coord ownIdent)
            (goalCoordOf ident_coord goal) PARALLEL) supply)
  | step (st st' : FindState) (sender : NodeIdentity) (echoed : Blob)
      (nodes : List NodeInfo) (carried : Option Announcement) (now : Int)
      (supply : List Blob)
      (h : FindReachable node_ident_coord ident_coord ownIdent goal st)
      (hstep : (findRespStep node_ident_coord ident_coord ownIdent st sender echoed nodes
        carried now supply).state = some st') :
      FindReachable node_ident_coord ident_coord ownIdent goal st'

namespace Wire

theorem decNat_encNat (k : Nat) (n : Nat) (r : List Byte) (h : n < 256 ^ k) :
    decNat k (encNat k n ++ r) = some (n, r) := by
  induction k generalizing n r with
  | zero =>
    have : n = 0 := by simpa using h
    simp [this, encNat, decNat]
  | succ k ih =>
    have hdiv : n / 256 < 256 ^ k := by
      rw [Nat.div_lt_iff_lt_mul (by norm_num)]
      calc n < 256 ^ (k + 1) := h
        _ = 256 ^ k * 256 := by ring
    simp [encNat, decNat, ih (n / 256) r hdiv, Nat.mod_add_div]

theorem decRaw_append (b r : List Byte) (n : Nat) (h : b.length = n) :
    decRaw n (b ++ r) = some (b, r) := by
  subst h
  simp [decRaw, List.take_left, List.drop_left]

theorem decBlob_encBlob (b r : List Byte) (h : blobWf b) :
    decBlob (encBlob b ++ r) = some (b, r) := by
  have hlen : b.length < 256 ^ 8 := by
    have : (256 : Nat) ^ 8 = 2 ^ 64 := by norm_num
    rw [this]; exact h
  simp only [encBlob, List.append_assoc]
  simp [decBlob, decNat_encNat 8 b.length (b ++ r) hlen, List.take_left, List.drop_left]

theorem decDhtCoord_encDhtCoord (c : DhtCoord) (r : List Byte) (h : c.bytes.length = 32) :
    decDhtCoord (encDhtCoord c ++ r) = some (c, r) := by
  have hwf : blobWf c.bytes := by unfold blobWf; rw [h]; norm_num
  simp [decDhtCoord, encDhtCoord, decBlob_encBlob c.bytes r hwf, h]

theorem decNodeIdentity_encNodeIdentity (i : NodeIdentity) (r : List Byte)
    (h : identKeyWf i.key) : decNodeIdentity (encNodeIdentity i ++ r) = some (i, r) := by
  simp only [encNodeIdentity, List.append_assoc]
  simp [decNodeIdentity, decNat_encNat 4 0 (i.key ++ r) (by norm_num),
    decRaw_append i.key r 32 h]

theorem decIdentity_encIdentity (i : Identity) (r : List Byte)
    (h : identKeyWf i.key) : decIdentity (encIdentity i ++ r) = some (i, r) := by
  simp only [encIdentity, List.append_assoc]
  simp [decIdentity, decNat_encNat 4 0 (i.key ++ r) (by norm_num),
    decRaw_append i.key r 32 h]

theorem decSerialAddr_encSerialAddr (a : SerialAddr) (r : List Byte)
    (h : serialAddrWf a) : decSerialAddr (encSerialAddr a ++ r) = some (a, r) := by
  simp [decSerialAddr, encSerialAddr, decBlob_encBlob a.bytes r h]

theorem decBincodeSignature_encBincodeSignature (b : BincodeSignature) (r : List Byte)
    (h : bincodeSignatureWf b) :
    decBincodeSignature (encBincodeSignature b ++ r) = some (b, r) := by
  simp only [encBincodeSignature, List.append_assoc]
  simp [decBincodeSignature, decBlob_encBlob b.message _ h.1, decBlob_encBlob b.signature r h.2]

theorem decAnnouncement_encAnnouncement (a : Announcement) (r : List Byte)
    (h : announcementWf a) : decAnnouncement (encAnnouncement a ++ r) = some (a, r) := by
  cases a with
  | v1 sig =>
    simp only [encAnnouncement, List.append_assoc]
    simp [decAnnouncement, decNat_encNat 4 0 _ (by norm_num),
      decBincodeSignature_encBincodeSignature sig r h]

theorem decFindGoal_encFindGoal (g : FindGoal) (r : List Byte)
    (h : findGoalWf g) : decFindGoal (encFindGoal g ++ r) = some (g, r) := by
  cases g with
  | coord c =>
    simp only [encFindGoal, List.append_assoc]
    simp [decFindGoal, decNat_encNat 4 0 _ (by norm_num),
      decDhtCoord_encDhtCoord c r h]
  | identity i =>
    simp only [encFindGoal, List.append_assoc]
    simp [decFindGoal, decNat_encNat 4 1 _ (by norm_num),
      decIdentity_encIdentity i r h]

theorem decMessage_to_bytes (m : Message) (r : List Byte) (h : messageWf m) :
    decMessage (m.to_bytes ++ r) = some (m, r) := by
  cases m with
  | findRequest q =>
    obtain ⟨h1, h2, h3⟩ := h
    simp only [Message.to_bytes, List.append_assoc]
    simp [decMessage, decNat_encNat 4 0 _ (by norm_num),
      decNodeIdentity_encNodeIdentity q.sender _ h1, decBlob_encBlob q.challenge _ h2,
      decFindGoal_encFindGoal q.goal r h3]
  | findResponse q =>
    obtain ⟨h1, h2⟩ := h
    simp only [Message.to_bytes, List.append_assoc]
    simp [decMessage, decNat_encNat 4 1 _ (by norm_num),
      decNodeIdentity_encNodeIdentity q.sender _ h1,
      decBincodeSignature_encBincodeSignature q.content r h2]
  | store q =>
    obtain ⟨h1, h2⟩ := h
    simp only [Message.to_bytes, List.append_assoc]
    simp [decMessage, decNat_encNat 4 2 _ (by norm_num),
      decIdentity_encIdentity q.key _ h1, decAnnouncement_encAnnouncement q.value r h2]
  | ping =>
    simp [Message.to_bytes, decMessage, decNat_encNat 4 3 r (by norm_num)]
  | pung k =>
    simp only [Message.to_bytes, List.append_assoc]
    simp [decMessage, decNat_encNat 4 4 _ (by norm_num),
      decNodeIdentity_encNodeIdentity k r h]
  | challenge b =>
    simp only [Message.to_bytes, List.append_assoc]
    simp [decMessage, decNat_encNat 4 5 _ (by norm_num), decBlob_encBlob b r h]
  | challengeResponse q =>
    obtain ⟨h1, h2⟩ := h
    simp only [Message.to_bytes, List.append_assoc]
    simp [decMessage, decNat_encNat 4 6 _ (by norm_num),
      decNodeIdentity_encNodeIdentity q.sender _ h1, decBlob_encBlob q.signature r h2]

/-- C9: for every well-formed protocol message (identity keys of 32 bytes,
buffers fitting their length prefixes), deserializing the bytes produced by
serializing the message yields the original message. -/
theorem c9_serialize_deserialize_identity (m : Message) (h : messageWf m) :
    Message.from_bytes m.to_bytes = some m := by
  have := decMessage_to_bytes m [] h
  rw [List.append_nil] at this
  simp [Message.from_bytes, this]

/-- Witness for C9: the roundtrip theorem applied to one concrete message of
each of the seven protocol variants. -/
theorem c9_serialize_deserialize_identity_witness :
    (Message.from_bytes (Message.to_bytes
      (.findRequest ⟨⟨List.replicate 32 1⟩, [9, 9], .coord ⟨List.replicate 32 2⟩⟩)) =
      some (.findRequest ⟨⟨List.replicate 32 1⟩, [9, 9], .coord ⟨List.replicate 32 2⟩⟩)) ∧
    (Message.from_bytes (Message.to_bytes
      (.findResponse ⟨⟨List.replicate 32 1⟩, ⟨[1, 2], [3]⟩⟩)) =
      some (.findResponse ⟨⟨List.replicate 32 1⟩, ⟨[1, 2], [3]⟩⟩)) ∧
    (Message.from_bytes (Message.to_bytes
      (.store ⟨⟨List.replicate 32 3⟩, .v1 ⟨[5], [6, 7]⟩⟩)) =
      some (.store ⟨⟨List.replicate 32 3⟩, .v1 ⟨[5], [6, 7]⟩⟩)) ∧
    (Message.from_bytes (Message.to_bytes .ping) = some .ping) ∧
    (Message.from_bytes (Message.to_bytes (.pung ⟨List.replicate 32 4⟩)) =
      some (.pung ⟨List.replicate 32 4⟩)) ∧
    (Message.from_bytes (Message.to_bytes (.challenge [8, 8, 8])) =
      some (.challenge [8, 8, 8])) ∧
    (Message.from_bytes (Message.to_bytes
      (.challengeResponse ⟨⟨List.replicate 32 5⟩, [1]⟩)) =
      some (.challengeResponse ⟨⟨List.replicate 32 5⟩, [1]⟩)) :=
  ⟨c9_serialize_deserialize_identity _ (by decide),
    c9_serialize_deserialize_identity _ (by decide),
    c9_serialize_deserialize_identity _ (by decide),
    c9_serialize_deserialize_identity _ (by decide),
    c9_serialize_deserialize_identity _ (by decide),
    c9_serialize_deserialize_identity _ (by decide),
    c9_serialize_deserialize_identity _ (by decide)⟩

end Wire

/-- C1 (code slip, evaluated at a failing input): with
`lz(XOR(goal, own)) = 1`, a single peer in bucket 0 and `count = 1`, the
source's descending loop `(0 .. leading_zeros - 1).rev()` skips bucket
`leading_zeros - 1` (here bucket 0) and `get_closest_peers` returns no
peers, while the walk the claim describes (descending from the starting
index minus 1 down to 0) returns the peer. -/
theorem c1_get_closest_peers_skips_bucket :
    get_closest_peers
      ⟨(List.replicate 256 []).set 0 [⟨⟨⟨1⟩, 10⟩, false⟩], [(10, ⟨1⟩)]⟩
      ⟨List.replicate 32 0⟩ ⟨64 :: List.replicate 31 0⟩ 1 = [] ∧
    get_closest_peers_claimed
      ⟨(List.replicate 256 []).set 0 [⟨⟨⟨1⟩, 10⟩, false⟩], [(10, ⟨1⟩)]⟩
      ⟨List.replicate 32 0⟩ ⟨64 :: List.replicate 31 0⟩ 1 = [⟨⟨1⟩, 10⟩] := by
  constructor <;> rfl

/-- C10: calling `add_good_node` with `node = None` leaves the node state —
buckets, address index, dirty flag, everything — unchanged, and returns the
same "would be new" boolean that the call with any supplied `NodeInfo`
returns. -/
theorem c10_add_good_node_none_is_pure (node_ident_coord : NodeIdentity → DhtCoord)
    (m : NodeModel) (id : NodeIdentity) :
    (add_good_node node_ident_coord m id none).1 = m ∧
    ∀ info : NodeInfo, (add_good_node node_ident_coord m id none).2 =
      (add_good_node node_ident_coord m id (some info)).2 := by
  constructor
  · by_cases h1 : id = m.ownIdent
    · simp [add_good_node, h1]
    · simp only [add_good_node, if_neg h1]
      cases h2 : findIdentIdx id (getBucket m.buckets
          ((dist (node_ident_coord id) (node_ident_coord m.ownIdent)).1)) with
      | some i => simp [h2]
      | none =>
        simp only [h2]
        by_cases h3 : (getBucket m.buckets
            ((dist (node_ident_coord id) (node_ident_coord m.ownIdent)).1)).length <
            NEIGHBORHOOD
        · simp [h3]
        · simp only [if_neg h3]
          cases h4 : lastUnresponsiveIdx (getBucket m.buckets
              ((dist (node_ident_coord id) (node_ident_coord m.ownIdent)).1)) with
          | some i => simp [h4]
          | none => simp [h4]
  · intro info
    by_cases h1 : id = m.ownIdent
    · simp [add_good_node, h1]
    · simp only [add_good_node, if_neg h1]
      cases h2 : findIdentIdx id (getBucket m.buckets
          ((dist (node_ident_coord id) (node_ident_coord m.ownIdent)).1)) with
      | some i => simp [h2]
      | none =>
        simp only [h2]
        by_cases h3 : (getBucket m.buckets
            ((dist (node_ident_coord id) (node_ident_coord m.ownIdent)).1)).length <
            NEIGHBORHOOD
        · simp [h3]
        · simp only [if_neg h3]
          cases h4 : lastUnresponsiveIdx (getBucket m.buckets
              ((dist (node_ident_coord id) (node_ident_coord m.ownIdent)).1)) with
          | some i => simp [h4]
          | none => simp [h4]

/-- C7 (code slip, evaluated at failing inputs): in the existing-entry branch
of `add_good_node` the source computes `let changed = *bucket_entry ==
new_state;` — an equality rather than an inequality — so re-adding an
existing peer with its unchanged `NodeInfo` (slot does not change) sets the
dirty flag, while re-adding it with a different address (slot does change)
leaves the dirty flag clear.  Both calls return false and store the supplied
info with the flag cleared, as claimed. -/
theorem c7_add_good_node_dirty_inverted :
    ((add_good_node demoCoord
        ⟨⟨0⟩, ⟨(List.replicate 256 []).set 7 [⟨⟨⟨1⟩, 5⟩, false⟩], [(5, ⟨1⟩)]⟩,
          false, [], []⟩ ⟨1⟩ (some ⟨⟨1⟩, 5⟩)).1.dirty = true ∧
      getBucket (add_good_node demoCoord
        ⟨⟨0⟩, ⟨(List.replicate 256 []).set 7 [⟨⟨⟨1⟩, 5⟩, false⟩], [(5, ⟨1⟩)]⟩,
          false, [], []⟩ ⟨1⟩ (some ⟨⟨1⟩, 5⟩)).1.buckets 7 = [⟨⟨⟨1⟩, 5⟩, false⟩] ∧
      (add_good_node demoCoord
        ⟨⟨0⟩, ⟨(List.replicate 256 []).set 7 [⟨⟨⟨1⟩, 5⟩, false⟩], [(5, ⟨1⟩)]⟩,
          false, [], []⟩ ⟨1⟩ (some ⟨⟨1⟩, 5⟩)).2 = false) ∧
    ((add_good_node demoCoord
        ⟨⟨0⟩, ⟨(List.replicate 256 []).set 7 [⟨⟨⟨1⟩, 5⟩, false⟩], [(5, ⟨1⟩)]⟩,
          false, [], []⟩ ⟨1⟩ (some ⟨⟨1⟩, 6⟩)).1.dirty = false ∧
      getBucket (add_good_node demoCoord
        ⟨⟨0⟩, ⟨(List.replicate 256 []).set 7 [⟨⟨⟨1⟩, 5⟩, false⟩], [(5, ⟨1⟩)]⟩,
          false, [], []⟩ ⟨1⟩ (some ⟨⟨1⟩, 6⟩)).1.buckets 7 = [⟨⟨⟨1⟩, 6⟩, false⟩] ∧
      (add_good_node demoCoord
        ⟨⟨0⟩, ⟨(List.replicate 256 []).set 7 [⟨⟨⟨1⟩, 5⟩, false⟩], [(5, ⟨1⟩)]⟩,
          false, [], []⟩ ⟨1⟩ (some ⟨⟨1⟩, 6⟩)).2 = false) := by
  exact ⟨⟨by rfl, by rfl, by rfl⟩, ⟨by rfl, by rfl, by rfl⟩⟩

/-- C8 counterexample: when the underlying socket send fails, `Node::send`
does not log the failure and continue — it unwraps the error and panics the
sending task. -/
theorem c8_send_failure_panics_unlogged :
    node_send (Except.error 0) = (SendOutcome.panicked, false) := by rfl

/-- C8 amended: a socket send failure makes `Node::send` panic via
`.unwrap()` (aborting the sending task); no error is logged, and the code has
no path closing the socket.  A successful send proceeds normally. -/
theorem c8_send_unwraps_error (e : SockErr) :
    node_send (Except.error e) = (SendOutcome.panicked, false) ∧
    node_send (Except.ok ()) = (SendOutcome.sent, false) := ⟨rfl, rfl⟩

/-- C4 (code slip, evaluated at a failing input): a find state whose
outstanding entry records `leading_zeros = 0` — the distance of the peer to
the GOAL coordinate, as `start_find`/`handle_find_resp` store it — while the
peer lives in bucket 2 (its distance to the node's own coordinate).  When the
timeout fires, the handler does remove the state and complete the waiters,
but `mark_node_unresponsive` searches bucket 0, finds nothing, and the peer's
slot in bucket 2 keeps `unresponsive = false` (the miss sets the dirty flag
instead). -/
theorem c4_timeout_marks_wrong_bucket :
    (handle_find_timeout
      ⟨⟨0⟩, ⟨(List.replicate 256 []).set 2 [⟨⟨⟨32⟩, 5⟩, false⟩], [(5, ⟨32⟩)]⟩, false, [],
        [(.coord ⟨128 :: List.replicate 31 0⟩,
          ⟨7, .coord ⟨128 :: List.replicate 31 0⟩, 0,
            [⟨⟨128 :: List.replicate 31 0⟩, .self⟩],
            [⟨⟨160 :: List.replicate 31 0⟩, 0, [9], ⟨⟨32⟩, 5⟩⟩], [], none⟩)]⟩
      (.coord ⟨128 :: List.replicate 31 0⟩) 7 10).1.findStates = [] ∧
    (handle_find_timeout
      ⟨⟨0⟩, ⟨(List.replicate 256 []).set 2 [⟨⟨⟨32⟩, 5⟩, false⟩], [(5, ⟨32⟩)]⟩, false, [],
        [(.coord ⟨128 :: List.replicate 31 0⟩,
          ⟨7, .coord ⟨128 :: List.replicate 31 0⟩, 0,
            [⟨⟨128 :: List.replicate 31 0⟩, .self⟩],
            [⟨⟨160 :: List.replicate 31 0⟩, 0, [9], ⟨⟨32⟩, 5⟩⟩], [], none⟩)]⟩
      (.coord ⟨128 :: List.replicate 31 0⟩) 7 10).2 =
      some ⟨[⟨⟨128 :: List.replicate 31 0⟩, .self⟩], none⟩ ∧
    getBucket (handle_find_timeout
      ⟨⟨0⟩, ⟨(List.replicate 256 []).set 2 [⟨⟨⟨32⟩, 5⟩, false⟩], [(5, ⟨32⟩)]⟩, false, [],
        [(.coord ⟨128 :: List.replicate 31 0⟩,
          ⟨7, .coord ⟨128 :: List.replicate 31 0⟩, 0,
            [⟨⟨128 :: List.replicate 31 0⟩, .self⟩],
            [⟨⟨160 :: List.replicate 31 0⟩, 0, [9], ⟨⟨32⟩, 5⟩⟩], [], none⟩)]⟩
      (.coord ⟨128 :: List.replicate 31 0⟩) 7 10).1.buckets 2 =
      [⟨⟨⟨32⟩, 5⟩, false⟩] := by
  exact ⟨by rfl, by rfl, by rfl⟩

/-- C6: the Store handler inserts or replaces only on a verified signature,
a published stamp at most one minute in the future, and (for an existing
entry) a strictly newer published stamp; every rejected case — including
storing the very same announcement again — leaves the store, and hence the
existing entry's `updated` stamp, unchanged. -/
theorem c6_store_insert_replace_policy (m : NodeModel) (key : Identity)
    (v : AnnouncementV1) (now : Int) :
    ((v.signer ≠ key ∨ v.content.published > now + 60 ∨
        ∃ vs, storeGet m.store key = some vs ∧ v.content.published ≤ annPublished vs.value) →
      (handle_store m key (.v1 v) now).1 = m) ∧
    ((v.signer = key ∧ v.content.published ≤ now + 60 ∧
        (storeGet m.store key = none ∨
          ∃ vs, storeGet m.store key = some vs ∧ annPublished vs.value < v.content.published)) →
      (handle_store m key (.v1 v) now).1 =
        { m with store := storeInsert m.store key ⟨.v1 v, now⟩ }) := by
  constructor
  · rintro (h | h | ⟨vs, hvs, hle⟩)
    · simp [handle_store, annVerify, h]
    · by_cases hsig : v.signer = key
      · simp [handle_store, annVerify, hsig, h]
      · simp [handle_store, annVerify, hsig]
    · by_cases hsig : v.signer = key
      · by_cases hfut : v.content.published > now + 60
        · simp [handle_store, annVerify, hsig, hfut]
        · simp [handle_store, annVerify, hsig, hfut, hvs, not_lt.mpr hle]
      · simp [handle_store, annVerify, hsig]
  · rintro ⟨hsig, hle, hcase⟩
    have hfut : ¬(v.content.published > now + 60) := not_lt.mpr hle
    cases hcase with
    | inl hnone => simp [handle_store, annVerify, hsig, hfut, hnone]
    | inr h =>
      obtain ⟨vs, hvs, hlt⟩ := h
      simp [handle_store, annVerify, hsig, hfut, hvs, hlt]

/-- Witness for C6: storing the very same announcement again leaves the store
(and its `updated = 50` stamp) unchanged; storing into a vacant slot inserts
with `updated = now`. -/
theorem c6_store_insert_replace_policy_witness :
    (handle_store ⟨⟨0⟩, ⟨[], []⟩, false, [(⟨1⟩, ⟨.v1 ⟨⟨100, 1⟩, ⟨1⟩⟩, 50⟩)], []⟩ ⟨1⟩
        (.v1 ⟨⟨100, 1⟩, ⟨1⟩⟩) 100).1 =
      ⟨⟨0⟩, ⟨[], []⟩, false, [(⟨1⟩, ⟨.v1 ⟨⟨100, 1⟩, ⟨1⟩⟩, 50⟩)], []⟩ ∧
    (handle_store ⟨⟨0⟩, ⟨[], []⟩, false, [], []⟩ ⟨1⟩ (.v1 ⟨⟨100, 1⟩, ⟨1⟩⟩) 100).1 =
      { (⟨⟨0⟩, ⟨[], []⟩, false, [], []⟩ : NodeModel) with
        store := storeInsert [] ⟨1⟩ ⟨.v1 ⟨⟨100, 1⟩, ⟨1⟩⟩, 100⟩ } :=
  ⟨(c6_store_insert_replace_policy _ _ _ _).1
      (Or.inr (Or.inr ⟨⟨.v1 ⟨⟨100, 1⟩, ⟨1⟩⟩, 50⟩, by rfl, by decide⟩)),
    (c6_store_insert_replace_policy _ _ _ _).2 ⟨rfl, by decide, Or.inl (by rfl)⟩⟩

theorem retainOutstanding_all_kept (sender : NodeIdentity) (echoed : Blob)
    (l : List OutstandingNodeEntry)
    (h : ∀ e ∈ l, ¬(e.node.ident = sender ∧ e.challenge = echoed)) :
    retainOutstanding sender echoed l = (l, none) := by
  induction l with
  | nil => rfl
  | cons e rest ih =>
    have he := h e (by simp)
    have hr := ih (fun x hx => h x (by simp [hx]))
    simp [retainOutstanding, hr, he]

/-- C2: a `FindResponse` whose sender matches outstanding entries of the
find state for its goal, but whose echoed challenge differs from every such
entry's stored challenge, changes nothing: every outstanding entry stays, the
state is untouched, no request is sent and no completion happens (the find
can still complete via the true response or the timeout). -/
theorem c2_wrong_challenge_ignored (node_ident_coord : NodeIdentity → DhtCoord)
    (ident_coord : Identity → DhtCoord) (ownIdent : NodeIdentity) (st : FindState)
    (sender : NodeIdentity) (echoed : Blob) (nodes : List NodeInfo)
    (carried : Option Announcement) (now : Int) (supply : List Blob)
    (hmem : ∃ e ∈ st.outstanding, e.node.ident = sender)
    (hch : ∀ e ∈ st.outstanding, e.node.ident = sender → e.challenge ≠ echoed) :
    findRespStep node_ident_coord ident_coord ownIdent st sender echoed nodes carried
      now supply = ⟨some st, none, []⟩ := by
  have hall : ∀ e ∈ st.outstanding, ¬(e.node.ident = sender ∧ e.challenge = echoed) := by
    intro e he hand
    exact hch e he hand.1 hand.2
  simp [findRespStep, retainOutstanding_all_kept sender echoed st.outstanding hall]

/-- Witness for C2: a concrete find state with one outstanding entry for the
sender whose challenge is `[1]`; a response echoing `[2]` leaves everything
unchanged. -/
theorem c2_wrong_challenge_ignored_witness :
    findRespStep demoCoord demoIdentCoord ⟨0⟩
      ⟨1, .coord ⟨List.replicate 32 0⟩, 0, [⟨⟨List.replicate 32 0⟩, .self⟩],
        [⟨⟨2 :: List.replicate 31 0⟩, 6, [1], ⟨⟨2⟩, 5⟩⟩], [], none⟩
      ⟨2⟩ [2] [] none 0 [] =
      ⟨some ⟨1, .coord ⟨List.replicate 32 0⟩, 0, [⟨⟨List.replicate 32 0⟩, .self⟩],
        [⟨⟨2 :: List.replicate 31 0⟩, 6, [1], ⟨⟨2⟩, 5⟩⟩], [], none⟩, none, []⟩ :=
  c2_wrong_challenge_ignored demoCoord demoIdentCoord ⟨0⟩ _ ⟨2⟩ [2] [] none 0 []
    ⟨⟨⟨2 :: List.replicate 31 0⟩, 6, [1], ⟨⟨2⟩, 5⟩⟩, by simp, by rfl⟩
    (by decide)

theorem retainOutstanding_found (sender : NodeIdentity) (echoed : Blob)
    (l : List OutstandingNodeEntry) (oe : OutstandingNodeEntry) (hoe : oe ∈ l)
    (hid : oe.node.ident = sender) (hch : oe.challenge = echoed) :
    ∃ e, (retainOutstanding sender echoed l).2 = some e := by
  induction l with
  | nil => cases hoe
  | cons e rest ih =>
    by_cases hmatch : e.node.ident = sender ∧ e.challenge = echoed
    · exact ⟨(retainOutstanding sender echoed rest).2.getD e,
        by simp [retainOutstanding, hmatch]⟩
    · have hoe2 : oe ∈ rest := by
        rcases List.mem_cons.mp hoe with h | h
        · exact absurd (h ▸ And.intro hid hch) hmatch
        · exact h
      obtain ⟨f, hf⟩ := ih hoe2
      exact ⟨f, by simp [retainOutstanding, hmatch, hf]⟩

theorem valueAfter_findRespStep_found (node_ident_coord : NodeIdentity → DhtCoord)
    (ident_coord : Identity → DhtCoord) (ownIdent : NodeIdentity) (st : FindState)
    (sender : NodeIdentity) (echoed : Blob) (nodes : List NodeInfo)
    (carried : Option Announcement) (now : Int) (supply : List Blob)
    (oe : OutstandingNodeEntry)
    (hfound : (retainOutstanding sender echoed st.outstanding).2 = some oe) :
    valueAfter (findRespStep node_ident_coord ident_coord ownIdent st sender echoed nodes
      carried now supply) = processValue now st.goal carried st.value := by
  simp only [findRespStep, hfound]
  split <;> simp [valueAfter]

theorem processValue_eq_acceptsCarried (now : Int) (gid : Identity) (v : AnnouncementV1)
    (held : Option Announcement) :
    processValue now (.identity gid) (some (.v1 v)) held =
      (if acceptsCarried now gid v held then some (.v1 v) else held) := by
  by_cases h1 : v.signer = gid
  · by_cases h2 : v.content.published + expiry < now
    · simp [processValue, acceptsCarried, annVerify, h1, h2]
    · cases held with
      | none => simp [processValue, acceptsCarried, annVerify, h1, h2]
      | some hv =>
        by_cases h3 : annPublished hv > v.content.published
        · simp [processValue, acceptsCarried, annVerify, h1, h2, h3, not_le.mpr h3]
        · simp [processValue, acceptsCarried, annVerify, h1, h2, h3, not_lt.mp h3]
  · simp [processValue, acceptsCarried, annVerify, h1]

/-- C5 amended: when a response carrying a value reaches the value-processing
step (outstanding entry matched) and the goal is `Identity(gid)`, the carried
value is stored iff its signature verifies against `gid`, it is not expired,
and the held value is absent or its `published` is at most — not strictly
less than — the carried one (the source drops the carried value only when the
held one is strictly newer, so equal `published` stamps are accepted);
otherwise the held value is unchanged. -/
theorem c5_value_stored_iff_not_older (node_ident_coord : NodeIdentity → DhtCoord)
    (ident_coord : Identity → DhtCoord) (ownIdent : NodeIdentity) (st : FindState)
    (sender : NodeIdentity) (echoed : Blob) (nodes : List NodeInfo)
    (v : AnnouncementV1) (now : Int) (supply : List Blob) (gid : Identity)
    (oe : OutstandingNodeEntry) (hoe : oe ∈ st.outstanding)
    (hid : oe.node.ident = sender) (hch : oe.challenge = echoed)
    (hgoal : st.goal = .identity gid) :
    valueAfter (findRespStep node_ident_coord ident_coord ownIdent st sender echoed nodes
      (some (.v1 v)) now supply) =
      (if acceptsCarried now gid v st.value then some (.v1 v) else st.value) := by
  obtain ⟨e, he⟩ := retainOutstanding_found sender echoed st.outstanding oe hoe hid hch
  rw [valueAfter_findRespStep_found node_ident_coord ident_coord ownIdent st sender echoed
    nodes (some (.v1 v)) now supply e he, hgoal, processValue_eq_acceptsCarried]

/-- Witness for C5's amended statement, at a concrete state holding a value
published at 100 and a response carrying one published at 150. -/
theorem c5_value_stored_iff_not_older_witness :
    valueAfter (findRespStep demoCoord demoIdentCoord ⟨0⟩
      ⟨1, .identity ⟨1⟩, 0, [⟨⟨List.replicate 32 0⟩, .self⟩],
        [⟨⟨3 :: List.replicate 31 0⟩, 6, [1], ⟨⟨2⟩, 5⟩⟩], [],
        some (.v1 ⟨⟨100, 1⟩, ⟨1⟩⟩)⟩
      ⟨2⟩ [1] [] (some (.v1 ⟨⟨150, 2⟩, ⟨1⟩⟩)) 200 []) =
      (if acceptsCarried 200 ⟨1⟩ ⟨⟨150, 2⟩, ⟨1⟩⟩ (some (.v1 ⟨⟨100, 1⟩, ⟨1⟩⟩))
       then some (.v1 ⟨⟨150, 2⟩, ⟨1⟩⟩) else some (.v1 ⟨⟨100, 1⟩, ⟨1⟩⟩)) :=
  c5_value_stored_iff_not_older demoCoord demoIdentCoord ⟨0⟩ _ ⟨2⟩ [1] []
    ⟨⟨150, 2⟩, ⟨1⟩⟩ 200 [] ⟨1⟩ ⟨⟨3 :: List.replicate 31 0⟩, 6, [1], ⟨⟨2⟩, 5⟩⟩
    (by simp) (by rfl) (by rfl) (by rfl)

/-- C5 counterexample: the carried value's `published` (100) is NOT newer
than the held one's (also 100), yet the handler replaces the held value with
the carried one — the claim's "only if ... newer" fails at equality. -/
theorem c5_equal_published_still_stored :
    valueAfter (findRespStep demoCoord demoIdentCoord ⟨0⟩
      ⟨1, .identity ⟨1⟩, 0, [⟨⟨List.replicate 32 0⟩, .self⟩],
        [⟨⟨3 :: List.replicate 31 0⟩, 6, [1], ⟨⟨2⟩, 5⟩⟩], [],
        some (.v1 ⟨⟨100, 1⟩, ⟨1⟩⟩)⟩
      ⟨2⟩ [1] [] (some (.v1 ⟨⟨100, 2⟩, ⟨1⟩⟩)) 200 []) =
      some (.v1 ⟨⟨100, 2⟩, ⟨1⟩⟩) ∧
    annPublished (.v1 ⟨⟨100, 2⟩, ⟨1⟩⟩) = annPublished (.v1 ⟨⟨100, 1⟩, ⟨1⟩⟩) ∧
    (some (Announcement.v1 ⟨⟨100, 2⟩, ⟨1⟩⟩) ≠ some (Announcement.v1 ⟨⟨100, 1⟩, ⟨1⟩⟩)) := by
  exact ⟨by rfl, by rfl, by decide⟩

theorem sortNearest_sorted (l : List NearestNodeEntry) :
    List.Sorted nearestLe (sortNearest l) :=
  List.sorted_insertionSort nearestLe l

theorem sortNearest_perm (l : List NearestNodeEntry) : List.Perm (sortNearest l) l :=
  List.perm_insertionSort nearestLe l

theorem sortOutstanding_perm (l : List OutstandingNodeEntry) :
    List.Perm (sortOutstanding l) l :=
  List.perm_insertionSort outstandingLe l

theorem retainOutstanding_none_fst (sender : NodeIdentity) (echoed : Blob)
    (l : List OutstandingNodeEntry)
    (h : (retainOutstanding sender echoed l).2 = none) :
    (retainOutstanding sender echoed l).1 = l := by
  induction l with
  | nil => rfl
  | cons e rest ih =>
    by_cases hmatch : e.node.ident = sender ∧ e.challenge = echoed
    · simp [retainOutstanding, hmatch] at h
    · simp only [retainOutstanding, if_neg hmatch] at h ⊢
      rw [ih h]

theorem retainOutstanding_fst_sublist (sender : NodeIdentity) (echoed : Blob)
    (l : List OutstandingNodeEntry) :
    (retainOutstanding sender echoed l).1.Sublist l := by
  induction l with
  | nil => exact List.Sublist.refl []
  | cons e rest ih =>
    by_cases hmatch : e.node.ident = sender ∧ e.challenge = echoed
    · simp only [retainOutstanding, if_pos hmatch]
      exact ih.cons e
    · simp only [retainOutstanding, if_neg hmatch]
      exact ih.cons₂ e

theorem retainOutstanding_snd_spec (sender : NodeIdentity) (echoed : Blob)
    (l : List OutstandingNodeEntry) (oe : OutstandingNodeEntry)
    (h : (retainOutstanding sender echoed l).2 = some oe) :
    oe ∈ l ∧ oe.node.ident = sender ∧ oe.challenge = echoed := by
  induction l with
  | nil => simp [retainOutstanding] at h
  | cons e rest ih =>
    by_cases hmatch : e.node.ident = sender ∧ e.challenge = echoed
    · simp only [retainOutstanding, if_pos hmatch] at h
      cases hr : (retainOutstanding sender echoed rest).2 with
      | some f =>
        rw [hr] at h
        simp at h
        obtain ⟨hmem, h1, h2⟩ := ih (hr.trans (congrArg some h))
        exact ⟨List.mem_cons_of_mem e hmem, h1, h2⟩
      | none =>
        rw [hr] at h
        simp at h
        subst h
        exact ⟨List.mem_cons_self e rest, hmatch.1, hmatch.2⟩
    · simp only [retainOutstanding, if_neg hmatch] at h
      obtain ⟨hmem, h1, h2⟩ := ih h
      exact ⟨List.mem_cons_of_mem e hmem, h1, h2⟩

theorem retainOutstanding_kept_ne_sender (sender : NodeIdentity) (echoed : Blob)
    (l : List OutstandingNodeEntry)
    (hnodup : (l.map (fun e => e.node.ident)).Nodup) (oe : OutstandingNodeEntry)
    (hfound : (retainOutstanding sender echoed l).2 = some oe) :
    ∀ e ∈ (retainOutstanding sender echoed l).1, e.node.ident ≠ sender := by
  induction l with
  | nil => simp [retainOutstanding] at hfound
  | cons x rest ih =>
    have hnodup2 : (rest.map (fun e => e.node.ident)).Nodup := (List.nodup_cons.mp hnodup).2
    have hxnot : x.node.ident ∉ rest.map (fun e => e.node.ident) :=
      (List.nodup_cons.mp hnodup).1
    by_cases hmatch : x.node.ident = sender ∧ x.challenge = echoed
    · simp only [retainOutstanding, if_pos hmatch]
      intro e he
      have hesub : e ∈ rest :=
        (retainOutstanding_fst_sublist sender echoed rest).mem he
      intro hcontra
      apply hxnot
      rw [hmatch.1, ← hcontra]
      exact List.mem_map_of_mem (fun e => e.node.ident) hesub
    · simp only [retainOutstanding, if_pos, if_neg hmatch] at hfound ⊢
      obtain ⟨hoemem, hoeid, _⟩ := retainOutstanding_snd_spec sender echoed rest oe hfound
      intro e he
      rcases List.mem_cons.mp he with rfl | he2
      · intro hcontra
        apply hxnot
        rw [hcontra, ← hoeid]
        exact List.mem_map_of_mem (fun e => e.node.ident) hoemem
      · exact ih hnodup2 hfound e he2

theorem pushUpTo_mem (count : Nat) (acc : List NodeInfo) (xs : List NodeState)
    (info : NodeInfo) (h : info ∈ pushUpTo count acc xs) :
    info ∈ acc ∨ ∃ s ∈ xs, info = s.node := by
  induction xs generalizing acc with
  | nil => exact Or.inl h
  | cons x rest ih =>
    simp only [pushUpTo] at h
    by_cases hfull : count ≤ acc.length
    · rw [if_pos hfull] at h
      exact Or.inl h
    · rw [if_neg hfull] at h
      rcases ih (acc ++ [x.node]) h with h2 | ⟨s, hs, rfl⟩
      · rcases List.mem_append.mp h2 with h3 | h3
        · exact Or.inl h3
        · exact Or.inr ⟨x, List.mem_cons_self x rest, by simpa using h3⟩
      · exact Or.inr ⟨s, List.mem_cons_of_mem x hs, rfl⟩

theorem pushUpTo_length_le (count : Nat) (acc : List NodeInfo) (xs : List NodeState)
    (h : acc.length ≤ count) : (pushUpTo count acc xs).length ≤ count := by
  induction xs generalizing acc with
  | nil => exact h
  | cons x rest ih =>
    simp only [pushUpTo]
    by_cases hfull : count ≤ acc.length
    · rw [if_pos hfull]; exact h
    · rw [if_neg hfull]
      exact ih (acc ++ [x.node]) (by simp; omega)

theorem pushUpTo_nodup (count : Nat) (acc : List NodeInfo) (xs : List NodeState)
    (hacc : (acc.map (fun i => i.ident)).Nodup)
    (hxs : (xs.map (fun s => s.node.ident)).Nodup)
    (hdisj : ∀ i ∈ acc, ∀ s ∈ xs, i.ident ≠ s.node.ident) :
    ((pushUpTo count acc xs).map (fun i => i.ident)).Nodup := by
  induction xs generalizing acc with
  | nil => exact hacc
  | cons x rest ih =>
    simp only [pushUpTo]
    by_cases hfull : count ≤ acc.length
    · rw [if_pos hfull]; exact hacc
    · rw [if_neg hfull]
      have hxrest := List.nodup_cons.mp hxs
      apply ih (acc ++ [x.node])
      · simp only [List.map_append, List.map_cons, List.map_nil]
        rw [List.nodup_append]
        refine ⟨hacc, List.nodup_singleton _, ?_⟩
        intro a ha hb
        simp at hb
        obtain ⟨i, hi, hieq⟩ := List.mem_map.mp ha
        exact hdisj i hi x (List.mem_cons_self x rest) (hieq.trans hb)
      · exact hxrest.2
      · intro i hi s hs
        rcases List.mem_append.mp hi with h2 | h2
        · exact hdisj i h2 s (List.mem_cons_of_mem x hs)
        · simp at h2
          subst h2
          intro hcontra
          apply hxrest.1
          show x.node.ident ∈ rest.map (fun s => s.node.ident)
          rw [hcontra]
          exact List.mem_map_of_mem (fun s => s.node.ident) hs

theorem collect_foldl_inv (node_ident_coord : NodeIdentity → DhtCoord)
    (ownIdent : NodeIdentity) (b : Buckets)
    (hwf : BucketsWf node_ident_coord ownIdent b) (count : Nat) :
    ∀ idxs : List Nat, idxs.Nodup → ∀ acc : List NodeInfo,
    acc.length ≤ count →
    (acc.map (fun i => i.ident)).Nodup →
    (∀ info ∈ acc, info.ident ≠ ownIdent) →
    (∀ info ∈ acc, ∀ i ∈ idxs, ∀ s ∈ getBucket b i, info.ident ≠ s.node.ident) →
    (idxs.foldl (fun a i => pushUpTo count a (getBucket b i)) acc).length ≤ count ∧
    ((idxs.foldl (fun a i => pushUpTo count a (getBucket b i)) acc).map
      (fun i => i.ident)).Nodup ∧
    (∀ info ∈ idxs.foldl (fun a i => pushUpTo count a (getBucket b i)) acc,
      info.ident ≠ ownIdent) := by
  intro idxs
  induction idxs with
  | nil =>
    intro _ acc h1 h2 h3 _
    exact ⟨h1, h2, h3⟩
  | cons i rest ih =>
    intro hnodup acc hlen hnd hnown hdisj
    simp only [List.foldl_cons]
    refine ih (List.nodup_cons.mp hnodup).2 (pushUpTo count acc (getBucket b i))
      (pushUpTo_length_le count acc _ hlen) ?_ ?_ ?_
    · exact pushUpTo_nodup count acc _ hnd (hwf.2.1 i)
        (fun a ha s hs => hdisj a ha i (List.mem_cons_self i rest) s hs)
    · intro info hinfo
      rcases pushUpTo_mem count acc _ info hinfo with h | ⟨s, hs, rfl⟩
      · exact hnown info h
      · exact hwf.2.2 i s hs
    · intro info hinfo j hj s hs
      rcases pushUpTo_mem count acc _ info hinfo with h | ⟨s0, hs0, rfl⟩
      · exact hdisj info h j (List.mem_cons_of_mem i hj) s hs
      · intro hcontra
        have hi_place := hwf.1 i s0 hs0
        have hj_place := hwf.1 j s hs
        rw [hcontra] at hi_place
        rw [hi_place] at hj_place
        exact (List.nodup_cons.mp hnodup).1 (hj_place ▸ hj)

theorem get_closest_peers_props (node_ident_coord : NodeIdentity → DhtCoord)
    (ownIdent : NodeIdentity) (b : Buckets) (goalCoord : DhtCoord) (count : Nat)
    (hwf : BucketsWf node_ident_coord ownIdent b) :
    (get_closest_peers b (node_ident_coord ownIdent) goalCoord count).length ≤ count ∧
    ((get_closest_peers b (node_ident_coord ownIdent) goalCoord count).map
      (fun i => i.ident)).Nodup ∧
    (∀ info ∈ get_closest_peers b (node_ident_coord ownIdent) goalCoord count,
      info.ident ≠ ownIdent) := by
  unfold get_closest_peers
  have hbase : ∀ idxs : List Nat, idxs.Nodup →
      (idxs.foldl (fun a i => pushUpTo count a (getBucket b i)) []).length ≤ count ∧
      ((idxs.foldl (fun a i => pushUpTo count a (getBucket b i)) []).map
        (fun i => i.ident)).Nodup ∧
      (∀ info ∈ idxs.foldl (fun a i => pushUpTo count a (getBucket b i)) [],
        info.ident ≠ ownIdent) := by
    intro idxs hnodup
    exact collect_foldl_inv node_ident_coord ownIdent b hwf count idxs hnodup []
      (by simp) (by simp) (by simp) (by simp)
  by_cases hlz : (dist goalCoord (node_ident_coord ownIdent)).1 > 0
  · simp only [if_pos hlz]
    rw [← List.foldl_append]
    apply hbase
    apply List.Nodup.append
    · exact List.nodup_range' _ _ 1 (by norm_num)
    · exact List.nodup_reverse.mpr (List.nodup_range _)
    · intro a ha hb
      have h1 := (List.mem_range'_1.mp ha).1
      have h2 : a < (dist goalCoord (node_ident_coord ownIdent)).1 - 1 := by
        have := List.mem_reverse.mp hb
        exact List.mem_range.mp this
      omega
  · simp only [if_neg hlz]
    apply hbase
    exact List.nodup_range' _ _ 1 (by norm_num)

theorem mkOutstanding_map_ident (node_ident_coord : NodeIdentity → DhtCoord)
    (goalCoord : DhtCoord) (peers : List NodeInfo) (supply : List Blob) :
    (mkOutstanding node_ident_coord goalCoord peers supply).map (fun e => e.node.ident) =
      peers.map (fun p => p.ident) := by
  induction peers generalizing supply with
  | nil => rfl
  | cons p ps ih => simp [mkOutstanding, ih]

theorem mkOutstanding_length (node_ident_coord : NodeIdentity → DhtCoord)
    (goalCoord : DhtCoord) (peers : List NodeInfo) (supply : List Blob) :
    (mkOutstanding node_ident_coord goalCoord peers supply).length = peers.length := by
  induction peers generalizing supply with
  | nil => rfl
  | cons p ps ih => simp [mkOutstanding, ih]

theorem startFindState_strong_inv (node_ident_coord : NodeIdentity → DhtCoord)
    (ident_coord : Identity → DhtCoord) (ownIdent : NodeIdentity) (goal : FindGoal)
    (reqId : Nat) (now : Int) (b : Buckets) (supply : List Blob)
    (hwf : BucketsWf node_ident_coord ownIdent b) :
    StrongFindInv ownIdent
      (startFindState node_ident_coord ident_coord ownIdent goal reqId now
        (get_closest_peers b (node_ident_coord ownIdent)
          (goalCoordOf ident_coord goal) PARALLEL) supply) := by
  obtain ⟨hlen, hnd, hnown⟩ := get_closest_peers_props node_ident_coord ownIdent b
    (goalCoordOf ident_coord goal) PARALLEL hwf
  unfold StrongFindInv FindStateInv startFindState
  refine ⟨⟨?_, ?_, ?_, ?_, ?_⟩, ?_⟩
  · simp [NEIGHBORHOOD]
  · simp
  · simp
  · simpa [mkOutstanding_length] using hlen
  · intro e he f hf
    simp at hf
    rw [hf]
    simp only [entryIdent]
    have : e.node.ident ∈ (mkOutstanding node_ident_coord
        (goalCoordOf ident_coord goal)
        (get_closest_peers b (node_ident_coord ownIdent)
          (goalCoordOf ident_coord goal) PARALLEL) supply).map
        (fun e => e.node.ident) :=
      List.mem_map_of_mem (fun e => e.node.ident) he
    rw [mkOutstanding_map_ident] at this
    obtain ⟨p, hp, hpe⟩ := List.mem_map.mp this
    rw [← hpe]
    exact hnown p hp
  · simpa [mkOutstanding_map_ident] using hnd

theorem sortNearest_append_single (ownIdent : NodeIdentity) (info : NodeInfo)
    (d : DhtCoord) (base : List NearestNodeEntry)
    (hnd : (base.map (fun e => entryIdent ownIdent e.node)).Nodup)
    (hnotin : info.ident ∉ base.map (fun e => entryIdent ownIdent e.node)) :
    List.Sorted nearestLe (sortNearest (base ++ [⟨d, .node info⟩])) ∧
    ((sortNearest (base ++ [⟨d, .node info⟩])).map
      (fun e => entryIdent ownIdent e.node)).Nodup ∧
    (sortNearest (base ++ [⟨d, .node info⟩])).length = base.length + 1 ∧
    (∀ f ∈ sortNearest (base ++ [⟨d, .node info⟩]), f ∈ base ∨ f = ⟨d, .node info⟩) := by
  have hperm := sortNearest_perm (base ++ [⟨d, .node info⟩])
  refine ⟨sortNearest_sorted _, ?_, ?_, ?_⟩
  · rw [(hperm.map (fun e => entryIdent ownIdent e.node)).nodup_iff]
    simp only [List.map_append, List.map_cons, List.map_nil]
    apply List.Nodup.append hnd (List.nodup_singleton _)
    intro a ha hb
    simp only [entryIdent, List.mem_singleton] at hb
    rw [hb] at ha
    exact hnotin ha
  · rw [hperm.length_eq]
    simp
  · intro f hf
    have := hperm.mem_iff.mp hf
    rcases List.mem_append.mp this with h | h
    · exact Or.inl h
    · exact Or.inr (by simpa using h)

theorem insertNearest_inv (ownIdent : NodeIdentity) (info : NodeInfo) (d : DhtCoord)
    (nearest : List NearestNodeEntry) (hlen : nearest.length ≤ NEIGHBORHOOD)
    (hsort : List.Sorted nearestLe nearest)
    (hnd : (nearest.map (fun e => entryIdent ownIdent e.node)).Nodup) :
    (insertNearest ownIdent info d nearest).length ≤ NEIGHBORHOOD ∧
    List.Sorted nearestLe (insertNearest ownIdent info d nearest) ∧
    ((insertNearest ownIdent info d nearest).map
      (fun e => entryIdent ownIdent e.node)).Nodup ∧
    (∀ f ∈ insertNearest ownIdent info d nearest,
      entryIdent ownIdent f.node = info.ident ∨
      entryIdent ownIdent f.node ∈ nearest.map (fun e => entryIdent ownIdent e.node)) := by
  unfold insertNearest
  by_cases hgate : nearest.length = NEIGHBORHOOD ∧
      coordLe (nearest.getLastD default).dist d = true
  · rw [if_pos hgate]
    exact ⟨hlen, hsort, hnd,
      fun f hf => Or.inr (List.mem_map_of_mem (fun e => entryIdent ownIdent e.node) hf)⟩
  · rw [if_neg hgate]
    by_cases hdup : nearest.any (fun e => entryIdent ownIdent e.node == info.ident) = true
    · rw [if_pos hdup]
      exact ⟨hlen, hsort, hnd,
        fun f hf => Or.inr (List.mem_map_of_mem (fun e => entryIdent ownIdent e.node) hf)⟩
    · rw [if_neg hdup]
      have hnotin : info.ident ∉ nearest.map (fun e => entryIdent ownIdent e.node) := by
        intro hmem
        apply hdup
        obtain ⟨e, he, heq⟩ := List.mem_map.mp hmem
        exact List.any_eq_true.mpr ⟨e, he, by simp [heq]⟩
      by_cases hfull : nearest.length = NEIGHBORHOOD
      · rw [if_pos hfull]
        have hsub : nearest.dropLast.Sublist nearest := List.dropLast_sublist nearest
        have hnd2 : (nearest.dropLast.map (fun e => entryIdent ownIdent e.node)).Nodup :=
          (hsub.map (fun e => entryIdent ownIdent e.node)).nodup hnd
        have hnotin2 : info.ident ∉
            nearest.dropLast.map (fun e => entryIdent ownIdent e.node) := by
          intro hmem
          exact hnotin ((hsub.map (fun e => entryIdent ownIdent e.node)).mem hmem)
        obtain ⟨h1, h2, h3, h4⟩ :=
          sortNearest_append_single ownIdent info d nearest.dropLast hnd2 hnotin2
        refine ⟨?_, h1, h2, ?_⟩
        · rw [h3, List.length_dropLast, hfull]
          simp [NEIGHBORHOOD]
        · intro f hf
          rcases h4 f hf with h | h
          · exact Or.inr (List.mem_map_of_mem (fun e => entryIdent ownIdent e.node)
              (hsub.mem h))
          · rw [h]
            exact Or.inl rfl
      · rw [if_neg hfull]
        obtain ⟨h1, h2, h3, h4⟩ :=
          sortNearest_append_single ownIdent info d nearest hnd hnotin
        refine ⟨?_, h1, h2, ?_⟩
        · rw [h3]
          omega
        · intro f hf
          rcases h4 f hf with h | h
          · exact Or.inr (List.mem_map_of_mem (fun e => entryIdent ownIdent e.node) h)
          · rw [h]
            exact Or.inl rfl

theorem processNode_inv (node_ident_coord : NodeIdentity → DhtCoord)
    (ownIdent : NodeIdentity) (goalCoord : DhtCoord) (ls : LoopState) (n : NodeInfo)
    (h : LoopInv ownIdent ls) :
    LoopInv ownIdent (processNode node_ident_coord ownIdent goalCoord ls n) := by
  obtain ⟨h1, h2, h3, h4, h5, h6⟩ := h
  simp only [processNode]
  by_cases c1 : ls.requested.contains n.ident = true
  · rw [if_pos c1]
    exact ⟨h1, h2, h3, h4, h5, h6⟩
  · rw [if_neg c1]
    by_cases c2 : ls.nearest.length = NEIGHBORHOOD ∧
        coordLe (ls.nearest.getLastD default).dist
          (dist (node_ident_coord n.ident) goalCoord).2 = true
    · rw [if_pos c2]
      exact ⟨h1, h2, h3, h4, h5, h6⟩
    · rw [if_neg c2]
      by_cases c3 : ls.outstanding.length = PARALLEL ∧
          coordLe (ls.outstanding.getLastD default).dist
            (dist (node_ident_coord n.ident) goalCoord).2 = true
      · rw [if_pos c3]
        exact ⟨h1, h2, h3, h4, h5, h6⟩
      · rw [if_neg c3]
        by_cases c4 : ls.nearest.any (fun e => entryIdent ownIdent e.node == n.ident) = true
        · rw [if_pos c4]
          exact ⟨h1, h2, h3, h4, h5, h6⟩
        · rw [if_neg c4]
          by_cases c5 : ls.outstanding.any (fun e => e.node.ident == n.ident) = true
          · rw [if_pos c5]
            exact ⟨h1, h2, h3, h4, h5, h6⟩
          · rw [if_neg c5]
            have hn_notin_out : n.ident ∉ ls.outstanding.map (fun e => e.node.ident) := by
              intro hmem
              obtain ⟨e, he, heq⟩ := List.mem_map.mp hmem
              exact c5 (List.any_eq_true.mpr ⟨e, he, by simp [heq]⟩)
            have hn_notin_near : ∀ f ∈ ls.nearest, n.ident ≠ entryIdent ownIdent f.node := by
              intro f hf hcontra
              exact c4 (List.any_eq_true.mpr ⟨f, hf, by simp [hcontra]⟩)
            set base := if ls.outstanding.length = PARALLEL then ls.outstanding.dropLast
              else ls.outstanding with hbase
            have hbase_sub : base.Sublist ls.outstanding := by
              rw [hbase]
              split
              · exact List.dropLast_sublist ls.outstanding
              · exact List.Sublist.refl ls.outstanding
            have hperm := sortOutstanding_perm
              (base ++ [⟨(dist (node_ident_coord n.ident) goalCoord).2,
                (dist (node_ident_coord n.ident) goalCoord).1, ls.supply.headD [], n⟩])
            refine ⟨h1, h2, h3, ?_, ?_, ?_⟩
            · rw [hperm.length_eq]
              simp only [List.length_append, List.length_cons, List.length_nil]
              rw [hbase]
              have hp : PARALLEL = 3 := rfl
              split
              · simp only [List.length_dropLast]
                omega
              · omega
            · rw [(hperm.map (fun e => e.node.ident)).nodup_iff]
              simp only [List.map_append, List.map_cons, List.map_nil]
              apply List.Nodup.append
              · exact (hbase_sub.map (fun e => e.node.ident)).nodup h5
              · exact List.nodup_singleton _
              · intro a ha hb
                simp only [List.mem_singleton] at hb
                rw [hb] at ha
                exact hn_notin_out ((hbase_sub.map (fun e => e.node.ident)).mem ha)
            · intro e he f hf
              rcases List.mem_append.mp (hperm.mem_iff.mp he) with hmem | hmem
              · exact h6 e (hbase_sub.mem hmem) f hf
              · simp only [List.mem_singleton] at hmem
                rw [hmem]
                exact hn_notin_near f hf

theorem foldl_processNode_inv (node_ident_coord : NodeIdentity → DhtCoord)
    (ownIdent : NodeIdentity) (goalCoord : DhtCoord) (nodes : List NodeInfo)
    (ls : LoopState) (h : LoopInv ownIdent ls) :
    LoopInv ownIdent (nodes.foldl (processNode node_ident_coord ownIdent goalCoord) ls) := by
  induction nodes generalizing ls with
  | nil => exact h
  | cons n rest ih =>
    exact ih _ (processNode_inv node_ident_coord ownIdent goalCoord ls n h)

theorem findRespStep_strong_inv (node_ident_coord : NodeIdentity → DhtCoord)
    (ident_coord : Identity → DhtCoord) (ownIdent : NodeIdentity) (st : FindState)
    (sender : NodeIdentity) (echoed : Blob) (nodes : List NodeInfo)
    (carried : Option Announcement) (now : Int) (supply : List Blob) (st' : FindState)
    (hinv : StrongFindInv ownIdent st)
    (hstep : (findRespStep node_ident_coord ident_coord ownIdent st sender echoed nodes
      carried now supply).state = some st') :
    StrongFindInv ownIdent st' := by
  obtain ⟨⟨h1, h2, h3, h4, h6⟩, h5⟩ := hinv
  cases hr : (retainOutstanding sender echoed st.outstanding).2 with
  | none =>
    have hfst := retainOutstanding_none_fst sender echoed st.outstanding hr
    simp only [findRespStep, hr, hfst] at hstep
    have hst : st' = st := by
      have := Option.some_inj.mp hstep
      exact this.symm
    rw [hst]
    exact ⟨⟨h1, h2, h3, h4, h6⟩, h5⟩
  | some oe =>
    obtain ⟨hoel, hoeid, hoech⟩ :=
      retainOutstanding_snd_spec sender echoed st.outstanding oe hr
    have hkept_sub := retainOutstanding_fst_sublist sender echoed st.outstanding
    have hkept_ne := retainOutstanding_kept_ne_sender sender echoed st.outstanding h5 oe hr
    obtain ⟨hn1, hn2, hn3, hn4⟩ := insertNearest_inv ownIdent oe.node
      (dist (node_ident_coord oe.node.ident) (node_ident_coord ownIdent)).2 st.nearest
      h1 h2 h3
    have hinit : LoopInv ownIdent
        ⟨insertNearest ownIdent oe.node
          (dist (node_ident_coord oe.node.ident) (node_ident_coord ownIdent)).2 st.nearest,
          (retainOutstanding sender echoed st.outstanding).1, st.requested, supply, []⟩ := by
      refine ⟨hn1, hn2, hn3, ?_, ?_, ?_⟩
      · exact le_trans hkept_sub.length_le h4
      · exact (hkept_sub.map (fun e => e.node.ident)).nodup h5
      · intro e he f hf
        rcases hn4 f hf with hcase | hcase
        · rw [hcase, hoeid]
          exact hkept_ne e he
        · obtain ⟨f2, hf2, hf2eq⟩ := List.mem_map.mp hcase
          rw [← hf2eq]
          exact h6 e (hkept_sub.mem he) f2 hf2
    have hfold := foldl_processNode_inv node_ident_coord ownIdent
      (goalCoordOf ident_coord st.goal) nodes _ hinit
    obtain ⟨g1, g2, g3, g4, g5, g6⟩ := hfold
    simp only [findRespStep, hr] at hstep
    split at hstep
    · simp at hstep
    · have hst := Option.some_inj.mp hstep
      rw [← hst]
      exact ⟨⟨g1, g2, g3, g4, g6⟩, g5⟩

/-- C3: the state `start_find` creates from a well-formed routing table, and
every state produced from it by `handle_find_resp` steps, satisfies the
invariant: at most `K = 8` nearest entries, sorted ascending by recorded
distance, with pairwise distinct identities (counting `Self` as the node's
own identity), and at most `PARALLEL = 3` outstanding entries whose
identities are disjoint from the identities in the nearest set. -/
theorem c3_find_state_invariant (node_ident_coord : NodeIdentity → DhtCoord)
    (ident_coord : Identity → DhtCoord) (ownIdent : NodeIdentity) (goal : FindGoal)
    (st : FindState)
    (h : FindReachable node_ident_coord ident_coord ownIdent goal st) :
    FindStateInv ownIdent st := by
  have hstrong : StrongFindInv ownIdent st := by
    induction h with
    | start b reqId now supply hwf =>
      exact startFindState_strong_inv node_ident_coord ident_coord ownIdent goal
        reqId now b supply hwf
    | step st st2 sender echoed nodes carried now supply hre hstep ih =>
      exact findRespStep_strong_inv node_ident_coord ident_coord ownIdent st sender
        echoed nodes carried now supply st2 ih hstep
  exact hstrong.1

/-- Witness for C3: a concrete reachable state — the start state from an
empty routing table followed by one `handle_find_resp` step — satisfies the
invariant. -/
theorem c3_find_state_invariant_witness :
    FindStateInv ⟨0⟩
      (startFindState demoCoord demoIdentCoord ⟨0⟩ (.coord ⟨List.replicate 32 0⟩) 1 0
        (get_closest_peers ⟨[], []⟩ (demoCoord ⟨0⟩)
          (goalCoordOf demoIdentCoord (.coord ⟨List.replicate 32 0⟩)) PARALLEL) []) :=
  c3_find_state_invariant demoCoord demoIdentCoord ⟨0⟩ (.coord ⟨List.replicate 32 0⟩) _
    (FindReachable.step _ _ ⟨9⟩ [] [] none 0 []
      (FindReachable.start ⟨[], []⟩ 1 0 []
        ⟨fun i s hs => by simp [getBucket] at hs,
         fun i => by simp [getBucket],
         fun i s hs => by simp [getBucket] at hs⟩)
      (by rfl))

end Spag



